import Mathlib

/-!
Shallow embedding of the production-job-optimizer scheduling core
(src/models/job.py, src/models/machine.py, src/models/schedule.py,
src/agents/batching_agent.py, src/agents/bottleneck_agent.py,
src/agents/constraint_agent.py, src/agents/supervisor.py,
src/utils/baseline_scheduler.py), together with theorems settling the
specification claims about it.

Conventions of the embedding:
- Python `datetime.time` values are `Time` records of hour/minute naturals;
  every `time(h, m)` constructor call in the source is embedded as `mkTime`,
  which fails (as Python raises ValueError) outside 0..23 / 0..59.
- Python ints are `Int`; Python floats are embedded as exact rationals.
- Python dicts keyed by machine id, always initialized over the full machine
  list before use, are embedded as total functions `String -> _`.
- Python `list.sort` / `sorted` (a stable sort) is embedded as the stable
  insertion sort `sortBy`, which computes the same stable ordering.
- Exceptions are embedded with `Except String`.
-/

namespace ProdOpt

/-- Stable insertion of `x` into `l`: `x` is placed after every element `y`
with `le y x`, matching the placement a stable sort gives elements arriving
in input order. -/
def insertBy (le : α → α → Bool) (x : α) : List α → List α
  | [] => [x]
  | y :: ys => if le y x then y :: insertBy le x ys else x :: y :: ys

/-- Stable sort by the boolean relation `le` (`le a b` meaning
"key of a ≤ key of b"): embedding of Python `list.sort(key=...)`, which is a
stable sort; for a total preorder key both produce the same list. -/
def sortBy (le : α → α → Bool) (l : List α) : List α :=
  l.foldl (fun acc x => insertBy le x acc) []

/-- Minute-of-day time value; embedding of Python `datetime.time` restricted
to hour/minute as the source uses it. -/
structure Time where
  hour : Nat
  minute : Nat
deriving Repr, DecidableEq

/-- Embedding of the Python `time(h, m)` constructor: validates
0 <= hour <= 23 and 0 <= minute <= 59, raising ValueError otherwise. -/
def mkTime (h m : Int) : Except String Time :=
  if h < 0 ∨ 23 < h then .error "ValueError: hour must be in 0..23"
  else if m < 0 ∨ 59 < m then .error "ValueError: minute must be in 0..59"
  else .ok ⟨h.toNat, m.toNat⟩

/-- Minutes since midnight, the `hour * 60 + minute` computation the source
performs wherever it compares times. -/
def Time.toMinutes (t : Time) : Nat := t.hour * 60 + t.minute

/-- Python `time` comparison `a < b` (lexicographic on hour, minute). -/
def Time.ltb (a b : Time) : Bool :=
  decide (a.hour < b.hour ∨ (a.hour = b.hour ∧ a.minute < b.minute))

/-- Python `time` comparison `a <= b` (lexicographic on hour, minute). -/
def Time.leb (a b : Time) : Bool :=
  decide (a.hour < b.hour ∨ (a.hour = b.hour ∧ a.minute ≤ b.minute))

/-- Job record, src/models/job.py (class Job). -/
structure Job where
  job_id : String
  product_type : String
  processing_time : Int
  due_time : Time
  priority : String
  machine_options : List String
  setup_requirements : Option String
  operator_skill_required : Option String
  batch_size : Int
deriving Repr, DecidableEq

/-- Embedding of Job construction including `Job.__post_init__` validation
(src/models/job.py lines 50-62): priority must be rush or normal,
processing_time positive, machine_options non-empty. -/
def mkJob (job_id product_type : String) (processing_time : Int) (due_time : Time)
    (priority : String) (machine_options : List String)
    (setup_requirements operator_skill_required : Option String)
    (batch_size : Int) : Except String Job :=
  if priority ≠ "rush" ∧ priority ≠ "normal" then
    .error ("Priority must be rush or normal, got: " ++ priority)
  else if processing_time ≤ 0 then
    .error "Processing time must be positive"
  else if machine_options = [] then
    .error ("Job " ++ job_id ++ " must have at least one machine option")
  else
    .ok ⟨job_id, product_type, processing_time, due_time, priority, machine_options,
         setup_requirements, operator_skill_required, batch_size⟩

/-- Job.is_rush property. -/
def Job.is_rush (j : Job) : Bool := j.priority == "rush"

/-- Job.can_run_on: membership of the machine id in machine_options. -/
def Job.can_run_on (j : Job) (machine_id : String) : Bool :=
  j.machine_options.contains machine_id

/-- Downtime window record, src/models/machine.py (class DowntimeWindow). -/
structure DowntimeWindow where
  start_time : Time
  end_time : Time
  reason : String
deriving Repr, DecidableEq

/-- DowntimeWindow.overlaps_with (src/models/machine.py lines 31-49):
half-open interval overlap on minutes since midnight. -/
def DowntimeWindow.overlaps_with (d : DowntimeWindow) (start stop : Time) : Bool :=
  let dt_start := d.start_time.toMinutes
  let dt_end := d.end_time.toMinutes
  let check_start := start.toMinutes
  let check_end := stop.toMinutes
  !(check_end ≤ dt_start || check_start ≥ dt_end)

/-- Machine record, src/models/machine.py (class Machine); the optional
fields not read by any algorithm under proof are omitted. -/
structure Machine where
  machine_id : String
  capabilities : List String
  capacity_per_hour : Int
  downtime_windows : List DowntimeWindow
deriving Repr, DecidableEq

/-- Machine.can_produce: membership of the product type in capabilities. -/
def Machine.can_produce (m : Machine) (product_type : String) : Bool :=
  m.capabilities.contains product_type

/-- Constraint record, src/models/machine.py (class Constraint); the setup
time dict is an association list (Python dict keys are unique, lookup takes
the entry for the key), floats are exact rationals. -/
structure Constraint where
  shift_start : Time
  shift_end : Time
  max_overtime_minutes : Int
  setup_times : List (String × Int)
  tardiness_weight : ℚ
  setup_weight : ℚ
  utilization_weight : ℚ
deriving Repr, DecidableEq

/-- Constraint.get_setup_time (src/models/machine.py lines 177-195): look up
key "from->to"; default 5 minutes for same product, 30 otherwise. -/
def Constraint.get_setup_time (c : Constraint) (from_product to_product : String) : Int :=
  if from_product == to_product then
    ((c.setup_times.lookup (from_product ++ "->" ++ to_product)).getD 5)
  else
    ((c.setup_times.lookup (from_product ++ "->" ++ to_product)).getD 30)

/-- Constraint.get_shift_duration_minutes. -/
def Constraint.get_shift_duration_minutes (c : Constraint) : Int :=
  (c.shift_end.toMinutes : Int) - (c.shift_start.toMinutes : Int)

/-- Job assignment record, src/models/schedule.py (class JobAssignment). -/
structure JobAssignment where
  job : Job
  machine_id : String
  start_time : Time
  end_time : Time
  setup_time_before : Int
deriving Repr, DecidableEq

/-- JobAssignment.get_duration_minutes: processing plus setup. -/
def JobAssignment.get_duration_minutes (a : JobAssignment) : Int :=
  a.job.processing_time + a.setup_time_before

/-- JobAssignment.is_late: Python compares the two time objects directly. -/
def JobAssignment.is_late (a : JobAssignment) : Bool :=
  Time.ltb a.job.due_time a.end_time

/-- JobAssignment.get_tardiness_minutes (src/models/schedule.py lines 40-47). -/
def JobAssignment.get_tardiness_minutes (a : JobAssignment) : Int :=
  if !a.is_late then 0
  else max 0 ((a.end_time.toMinutes : Int) - (a.job.due_time.toMinutes : Int))

/-- KPI record, src/models/schedule.py (class KPI); float fields are exact
rationals. -/
structure KPI where
  total_tardiness : Int
  total_setup_time : Int
  num_setup_switches : Int
  max_machine_utilization : ℚ
  min_machine_utilization : ℚ
  utilization_imbalance : ℚ
  num_violations : Int
deriving Repr, DecidableEq

/-- KPI.get_weighted_score (src/models/schedule.py lines 80-98): weighted sum
with a 1000-point penalty per violation; lower is better. -/
def KPI.get_weighted_score (k : KPI) (c : Constraint) : ℚ :=
  (k.total_tardiness : ℚ) * c.tardiness_weight +
  (k.total_setup_time : ℚ) * c.setup_weight +
  k.utilization_imbalance * c.utilization_weight +
  (k.num_violations : ℚ) * 1000

/-- Schedule record, src/models/schedule.py (class Schedule): an ordered
dict from machine id to the list of assignments in insertion order, plus the
optional KPI and metadata. -/
structure Schedule where
  assignments : List (String × List JobAssignment)
  kpis : Option KPI
  created_by : String
  explanation : String
deriving Repr, DecidableEq

/-- Appends a value to the bucket of `key` in an insertion-ordered dict of
lists, creating the bucket at the end when absent (Python dict semantics). -/
def bucketAppend (key : String) (x : α) : List (String × List α) → List (String × List α)
  | [] => [(key, [x])]
  | (k, v) :: rest =>
      if k == key then (k, v ++ [x]) :: rest else (k, v) :: bucketAppend key x rest

/-- Schedule.add_assignment (src/models/schedule.py lines 137-148). -/
def Schedule.add_assignment (s : Schedule) (a : JobAssignment) : Schedule :=
  { s with assignments := bucketAppend a.machine_id a s.assignments }

/-- Schedule.get_machine_jobs. -/
def Schedule.get_machine_jobs (s : Schedule) (machine_id : String) : List JobAssignment :=
  (s.assignments.lookup machine_id).getD []

/-- Schedule.get_all_jobs: concatenation of the machine buckets in dict
insertion order. -/
def Schedule.get_all_jobs (s : Schedule) : List JobAssignment :=
  (s.assignments.map Prod.snd).flatten

/-- The empty schedule `Schedule()` with the dataclass defaults. -/
def emptySchedule : Schedule :=
  { assignments := [], kpis := none, created_by := "Multi-Agent Optimizer", explanation := "" }

/-- Python truthiness of an optional string (`if prev_product:`):
None and the empty string are falsy. -/
def strTruthy : Option String → Bool
  | none => false
  | some s => s != ""

/-- Python `prev_product == job.product_type` where prev_product may be None
(None == str is False). -/
def optEqStr : Option String → String → Bool
  | none, _ => false
  | some p, t => p == t

/-- A setup-time policy: from the machine's current product (None when no
job ran yet) and the next job, compute the setup minutes. -/
def SetupRule : Type := Option String → Job → Constraint → Int

/-- Setup-time computation of the batching engine
(src/agents/batching_agent.py lines 195-201); the baseline scheduler
(src/utils/baseline_scheduler.py lines 93-99) contains the identical code. -/
def batchingSetupRule : SetupRule := fun prev_product job c =>
  if strTruthy prev_product && !(optEqStr prev_product job.product_type) then
    c.get_setup_time (prev_product.getD "") job.product_type
  else if optEqStr prev_product job.product_type then
    c.get_setup_time job.product_type job.product_type
  else 0

/-- Setup-time computation of the bottleneck engine
(src/agents/bottleneck_agent.py lines 200-204). -/
def bottleneckSetupRule : SetupRule := fun prev_product job c =>
  if strTruthy prev_product then
    c.get_setup_time (prev_product.getD "") job.product_type
  else 0

/-- Per-run mutable state of the batching/bottleneck assignment loop: the
schedule under construction and the per-machine dicts (time cursor, current
product, cumulative load), embedded as total functions since the source
initializes them over the whole machine list before any lookup. -/
structure EngineState where
  sched : Schedule
  current_time : String → Time
  current_product : String → Option String
  machine_loads : String → Int

/-- Point update of a machine-keyed dict. -/
def updateMap (f : String → α) (key : String) (v : α) : String → α :=
  fun k => if k == key then v else f k

/-- Fresh engine state: every cursor at shift start, no current product,
zero load (batching_agent.py lines 165-170, bottleneck_agent.py 178-180). -/
def initState (c : Constraint) : EngineState :=
  { sched := emptySchedule
    current_time := fun _ => c.shift_start
    current_product := fun _ => none
    machine_loads := fun _ => 0 }

/-- The proposed [start, end) interval computed from a machine's time cursor
plus setup time (batching_agent.py lines 204-210, bottleneck_agent.py
207-212): start hour is NOT clamped and can make `time()` raise; end hour is
clamped to 23, end minutes kept. -/
def proposeInterval (cursor : Time) (setup_time processing_time : Int) :
    Except String (Time × Time) :=
  let start_minutes : Int := (cursor.toMinutes : Int) + setup_time
  let end_minutes : Int := start_minutes + processing_time
  match mkTime (start_minutes.fdiv 60) (start_minutes.emod 60),
        mkTime (min (end_minutes.fdiv 60) 23) (end_minutes.emod 60) with
  | .ok ps, .ok pe => .ok (ps, pe)
  | .error e, _ => .error e
  | _, .error e => .error e

/-- Commit of a successful assignment (batching_agent.py lines 242-256,
bottleneck_agent.py 244-258): append the assignment, advance the cursor to
the proposed end, record the product, add processing+setup to the load. -/
def commitAssignment (st : EngineState) (machine_id : String) (job : Job)
    (proposed_start proposed_end : Time) (setup_time : Int) : EngineState :=
  { sched := st.sched.add_assignment
      ⟨job, machine_id, proposed_start, proposed_end, setup_time⟩
    current_time := updateMap st.current_time machine_id proposed_end
    current_product := updateMap st.current_product machine_id (some job.product_type)
    machine_loads := updateMap st.machine_loads machine_id
      (st.machine_loads machine_id + job.processing_time + setup_time) }

/-- Result of trying one candidate machine for one job. -/
inductive AttemptOutcome where
  | committed (st : EngineState)
  | rejected (st : EngineState)
  | failed (msg : String)

/-- One candidate machine attempt of the batching/bottleneck engines
(batching_agent.py lines 191-259, bottleneck_agent.py 196-261): propose an
interval from the cursor; on the first overlapping downtime window advance
the cursor to that window's end and recompute the interval once; if it still
overlaps any window the machine is rejected (cursor left advanced),
otherwise the assignment is committed. -/
def attemptOnMachine (rule : SetupRule) (c : Constraint) (job : Job)
    (m : Machine) (st : EngineState) : AttemptOutcome :=
  let machine_id := m.machine_id
  let setup_time := rule (st.current_product machine_id) job c
  match proposeInterval (st.current_time machine_id) setup_time job.processing_time with
  | .error e => .failed e
  | .ok (ps, pe) =>
    match m.downtime_windows.find? (fun d => d.overlaps_with ps pe) with
    | none => .committed (commitAssignment st machine_id job ps pe setup_time)
    | some dt =>
      let dt_end_minutes : Nat := dt.end_time.toMinutes
      match mkTime ((dt_end_minutes / 60 : Nat) : Int) ((dt_end_minutes % 60 : Nat) : Int) with
      | .error e => .failed e
      | .ok newCursor =>
        let st' : EngineState :=
          { st with current_time := updateMap st.current_time machine_id newCursor }
        match proposeInterval (st'.current_time machine_id) setup_time job.processing_time with
        | .error e => .failed e
        | .ok (ps₂, pe₂) =>
          if m.downtime_windows.any (fun d => d.overlaps_with ps₂ pe₂) then
            .rejected st'
          else
            .committed (commitAssignment st' machine_id job ps₂ pe₂ setup_time)

/-- The inner for-loop over candidate machines: commit stops the loop,
rejection moves to the next machine with the state (advanced cursor) kept,
a raise propagates. -/
def tryMachines (rule : SetupRule) (c : Constraint) (job : Job) :
    List Machine → EngineState → Except String EngineState
  | [], st => .ok st
  | m :: rest, st =>
    match attemptOnMachine rule c job m st with
    | .failed e => .error e
    | .committed st' => .ok st'
    | .rejected st' => tryMachines rule c job rest st'

/-- Machines compatible with a job: capability and machine-option check
(batching_agent.py lines 179-182, bottleneck_agent.py 184-187,
baseline_scheduler.py 79-82). -/
def compatibleFor (job : Job) (machines : List Machine) : List Machine :=
  machines.filter (fun m => m.can_produce job.product_type && job.can_run_on m.machine_id)

/-- One job of the batching/bottleneck loop: skip (drop silently) when no
machine is compatible, else try candidates in ascending current-load order
(stable, so input order breaks ties). -/
def processJob (rule : SetupRule) (c : Constraint) (machines : List Machine)
    (job : Job) (st : EngineState) : Except String EngineState :=
  let compatible := compatibleFor job machines
  if compatible.isEmpty then .ok st
  else
    tryMachines rule c job
      (sortBy (fun m₁ m₂ => decide (st.machine_loads m₁.machine_id ≤ st.machine_loads m₂.machine_id))
        compatible) st

/-- The outer for-loop over the ordered jobs. -/
def runEngineLoop (rule : SetupRule) (c : Constraint) (machines : List Machine) :
    List Job → EngineState → Except String EngineState
  | [], st => .ok st
  | job :: rest, st =>
    match processJob rule c machines job st with
    | .error e => .error e
    | .ok st' => runEngineLoop rule c machines rest st'

/-- Grouping of jobs by product type in first-seen order
(batching_agent.py lines 154-156, `defaultdict(list)` insertion order). -/
def groupByProduct (jobs : List Job) : List (String × List Job) :=
  jobs.foldl (fun acc j => bucketAppend j.product_type j acc) []

/-- Batching within-group order: rush first, then by due time
(batching_agent.py lines 159-162). -/
def batchingJobLe (j₁ j₂ : Job) : Bool :=
  let r : Job → Nat := fun j => if j.is_rush then 0 else 1
  decide (r j₁ < r j₂ ∨ (r j₁ = r j₂ ∧ Time.leb j₁.due_time j₂.due_time = true))

/-- Bottleneck job order: rush first, then longest processing time first
(bottleneck_agent.py lines 173-175, key `(rush, -processing_time)`). -/
def bottleneckJobLe (j₁ j₂ : Job) : Bool :=
  let r : Job → Nat := fun j => if j.is_rush then 0 else 1
  decide (r j₁ < r j₂ ∨ (r j₁ = r j₂ ∧ -j₁.processing_time ≤ -j₂.processing_time))

/-- Baseline job order: rush first, then job_id lexicographic
(baseline_scheduler.py line 67). -/
def baselineJobLe (j₁ j₂ : Job) : Bool :=
  let r : Job → Nat := fun j => if j.is_rush then 0 else 1
  decide (r j₁ < r j₂ ∨ (r j₁ = r j₂ ∧ (j₁.job_id < j₂.job_id ∨ j₁.job_id = j₂.job_id)))

/-- Textual explanation of the batching run (batching_agent.py lines
262-275); free text carrying the LLM recommendations and summary counts. -/
def batchingExplanation (llm_recommendations : String) (numGroups numRush numMachines
    numScheduled numJobs : Nat) : String :=
  "BATCHING AGENT RECOMMENDATIONS: " ++ llm_recommendations ++
  " IMPLEMENTATION: Grouped " ++ toString numGroups ++ " product types, prioritized " ++
  toString numRush ++ " rush jobs, distributed across " ++ toString numMachines ++
  " machines. RESULT: Total jobs scheduled: " ++ toString numScheduled ++ " / " ++
  toString numJobs

/-- The job processing order of the batching engine: groups in first-seen
product order, each group stably sorted rush-first then by due time, then
flattened (batching_agent.py lines 154-175). -/
def batchingJobOrder (jobs : List Job) : List Job :=
  ((groupByProduct jobs).map (fun g => sortBy batchingJobLe g.2)).flatten

/-- create_batched_schedule (src/agents/batching_agent.py lines 126-278).
The LLM response, obtained before the algorithm runs, is passed in as the
opaque `llm_recommendations` argument; it reaches only the explanation. -/
def create_batched_schedule (jobs : List Job) (machines : List Machine)
    (c : Constraint) (llm_recommendations : String) :
    Except String (Schedule × String) :=
  match runEngineLoop batchingSetupRule c machines (batchingJobOrder jobs) (initState c) with
  | .error e => .error e
  | .ok st =>
    let explanation := batchingExplanation llm_recommendations (groupByProduct jobs).length
      (jobs.filter (fun j => j.is_rush)).length machines.length
      st.sched.get_all_jobs.length jobs.length
    .ok ({ st.sched with explanation := explanation }, explanation)

/-- Maximum of a list of ints with 0 for the empty list (the source guards
`max(...) if machine_loads else 0`). -/
def listMaxI : List Int → Int
  | [] => 0
  | x :: xs => xs.foldl max x

/-- Minimum of a list of ints with 0 for the empty list. -/
def listMinI : List Int → Int
  | [] => 0
  | x :: xs => xs.foldl min x

/-- Textual explanation of the bottleneck run (bottleneck_agent.py lines
269-290): LLM analysis plus old/new load extremes and counts. -/
def bottleneckExplanation (llm_analysis : String) (max_load min_load new_max new_min : Int)
    (numJobs numMachines numScheduled : Nat) : String :=
  "BOTTLENECK AGENT ANALYSIS: " ++ llm_analysis ++
  " Original imbalance: " ++ toString (max_load - min_load) ++
  " min. Rebalanced imbalance: " ++ toString (new_max - new_min) ++
  " min. Balanced " ++ toString numJobs ++ " jobs across " ++ toString numMachines ++
  " machines. Successfully scheduled: " ++ toString numScheduled ++ " / " ++ toString numJobs

/-- rebalance_schedule (src/agents/bottleneck_agent.py lines 133-293). The
input schedule is only measured for the explanation; assignments are rebuilt
from `all_jobs` with the load-balancing policy. The LLM analysis is the
opaque `llm_analysis` argument. -/
def rebalance_schedule (schedule : Schedule) (machines : List Machine)
    (c : Constraint) (all_jobs : List Job) (llm_analysis : String) :
    Except String (Schedule × String) :=
  let machine_loads := machines.map (fun m =>
    ((schedule.get_machine_jobs m.machine_id).map (fun a => a.get_duration_minutes)).foldl (· + ·) 0)
  let max_load := listMaxI machine_loads
  let min_load := listMinI machine_loads
  let remaining_jobs := sortBy bottleneckJobLe all_jobs
  match runEngineLoop bottleneckSetupRule c machines remaining_jobs (initState c) with
  | .error e => .error e
  | .ok st =>
    let current_loads := machines.map (fun m => st.machine_loads m.machine_id)
    let explanation := bottleneckExplanation llm_analysis max_load min_load
      (listMaxI current_loads) (listMinI current_loads)
      all_jobs.length machines.length st.sched.get_all_jobs.length
    .ok ({ st.sched with explanation := explanation }, explanation)

/-- Count of product-type switches between adjacent assignments of one
machine's list, in insertion order (src/models/schedule.py lines 190-194). -/
def countSwitches : List JobAssignment → Int
  | [] => 0
  | [_] => 0
  | a :: b :: rest =>
      (if b.job.product_type ≠ a.job.product_type then 1 else 0) + countSwitches (b :: rest)

/-- The utilization accumulation loop of calculate_kpis (schedule.py lines
200-205): machines with no assignment are skipped; Python raises
ZeroDivisionError when the shift duration is zero and a machine has jobs. -/
def utilizationLoop (s : Schedule) (shift_duration : Int) :
    List Machine → List ℚ → Except String (List ℚ)
  | [], acc => .ok acc
  | m :: rest, acc =>
    let machine_jobs := s.get_machine_jobs m.machine_id
    if machine_jobs.isEmpty then utilizationLoop s shift_duration rest acc
    else if shift_duration = 0 then .error "ZeroDivisionError: division by zero"
    else
      let total_time : Int :=
        (machine_jobs.map (fun a => a.get_duration_minutes)).foldl (· + ·) 0
      utilizationLoop s shift_duration rest
        (acc ++ [((total_time : ℚ) / (shift_duration : ℚ)) * 100])

/-- Maximum of a list of rationals (only used on non-empty lists). -/
def listMaxQ : List ℚ → ℚ
  | [] => 0
  | x :: xs => xs.foldl max x

/-- Minimum of a list of rationals (only used on non-empty lists). -/
def listMinQ : List ℚ → ℚ
  | [] => 0
  | x :: xs => xs.foldl min x

/-- Schedule.calculate_kpis (src/models/schedule.py lines 169-213): KPI
recomputed from scratch; num_violations is left at its default 0. -/
def Schedule.calculate_kpis (s : Schedule) (machines : List Machine) (c : Constraint) :
    Except String KPI :=
  let all_jobs := s.get_all_jobs
  let total_tardiness := (all_jobs.map (fun a => a.get_tardiness_minutes)).foldl (· + ·) 0
  let total_setup_time := (all_jobs.map (fun a => a.setup_time_before)).foldl (· + ·) 0
  let num_setup_switches := s.assignments.foldl (fun acc g => acc + countSwitches g.2) 0
  let shift_duration := c.get_shift_duration_minutes
  match utilizationLoop s shift_duration machines [] with
  | .error e => .error e
  | .ok utilizations =>
    if utilizations.isEmpty then
      .ok ⟨total_tardiness, total_setup_time, num_setup_switches, 0, 0, 0, 0⟩
    else
      let maxU := listMaxQ utilizations
      let minU := listMinQ utilizations
      .ok ⟨total_tardiness, total_setup_time, num_setup_switches, maxU, minU, maxU - minU, 0⟩

/-- Per-run state of the baseline FIFO loop (baseline_scheduler.py lines
70-75): no load tracking, but assigned/skipped counters for the report. -/
structure BaselineState where
  sched : Schedule
  current_time : String → Time
  current_product : String → Option String
  jobs_assigned : Nat
  jobs_skipped : Nat

/-- One job of the baseline FIFO loop (baseline_scheduler.py lines 77-124):
first compatible machine in list order, no downtime check, both start and
end hours clamped to 23. -/
def baselineStep (c : Constraint) (machines : List Machine) (st : BaselineState)
    (job : Job) : Except String BaselineState :=
  match compatibleFor job machines with
  | [] => .ok { st with jobs_skipped := st.jobs_skipped + 1 }
  | machine :: _ =>
    let machine_id := machine.machine_id
    let setup_time := batchingSetupRule (st.current_product machine_id) job c
    let start := st.current_time machine_id
    let start_minutes : Int := (start.toMinutes : Int) + setup_time
    let end_minutes : Int := start_minutes + job.processing_time
    match mkTime (min (start_minutes.fdiv 60) 23) (start_minutes.emod 60) with
    | .error e => .error e
    | .ok proposed_start =>
      match mkTime (min (end_minutes.fdiv 60) 23) (end_minutes.emod 60) with
      | .error e => .error e
      | .ok proposed_end =>
        .ok { sched := st.sched.add_assignment
                ⟨job, machine_id, proposed_start, proposed_end, setup_time⟩
              current_time := updateMap st.current_time machine_id proposed_end
              current_product := updateMap st.current_product machine_id (some job.product_type)
              jobs_assigned := st.jobs_assigned + 1
              jobs_skipped := st.jobs_skipped }

/-- The baseline for-loop over the sorted jobs. -/
def baselineLoop (c : Constraint) (machines : List Machine) :
    List Job → BaselineState → Except String BaselineState
  | [], st => .ok st
  | job :: rest, st =>
    match baselineStep c machines st job with
    | .error e => .error e
    | .ok st' => baselineLoop c machines rest st'

/-- Textual report of the baseline run (baseline_scheduler.py lines 130-147). -/
def baselineExplanation (jobs_assigned jobs_skipped numJobs : Nat) : String :=
  "BASELINE FIFO SCHEDULER - NO OPTIMIZATION. Jobs assigned: " ++
  toString jobs_assigned ++ " / " ++ toString numJobs ++
  ". Jobs skipped: " ++ toString jobs_skipped

/-- BaselineScheduler.schedule (src/utils/baseline_scheduler.py lines
39-150): FIFO assignment (rush first, then job_id order), first compatible
machine, no downtime avoidance, then KPIs computed and stored. -/
def BaselineScheduler.schedule (jobs : List Job) (machines : List Machine)
    (c : Constraint) : Except String (Schedule × String) :=
  let sorted_jobs := sortBy baselineJobLe jobs
  let init : BaselineState :=
    { sched := emptySchedule
      current_time := fun _ => c.shift_start
      current_product := fun _ => none
      jobs_assigned := 0
      jobs_skipped := 0 }
  match baselineLoop c machines sorted_jobs init with
  | .error e => .error e
  | .ok st =>
    match st.sched.calculate_kpis machines c with
    | .error e => .error e
    | .ok kpi =>
      let explanation := baselineExplanation st.jobs_assigned st.jobs_skipped jobs.length
      .ok ({ st.sched with kpis := some kpi, explanation := explanation }, explanation)

/-- Structured violation reports; each constructor corresponds one-to-one to
one of the f-string `violations.append(...)` calls of
src/agents/constraint_agent.py, with the formatting abstracted to the data
interpolated into the message. -/
inductive Violation where
  | missingJobs (missing : List String)
  | beyondShift (job_id machine_id : String) (end_time : Time)
  | incompatibleMachine (machine_id product_type job_id : String)
  | downtimeConflict (job_id machine_id : String) (w : DowntimeWindow)
  | timeOverlap (machine_id job_id other_job_id : String)
  | rushLate (job_id : String) (tardiness : Int)
deriving Repr, DecidableEq

/-- The per-assignment checks of validate_schedule step 2
(constraint_agent.py lines 69-96): shift boundary, machine capability (when
the machine is found), and one violation per overlapping downtime window. -/
def perAssignmentChecks (machines : List Machine) (c : Constraint)
    (a : JobAssignment) : List Violation :=
  let shiftV :=
    if (a.end_time.toMinutes : Int) >
        (c.shift_end.toMinutes : Int) + c.max_overtime_minutes then
      [Violation.beyondShift a.job.job_id a.machine_id a.end_time]
    else []
  let machineV :=
    match machines.find? (fun m => m.machine_id == a.machine_id) with
    | none => []
    | some machine =>
      (if machine.can_produce a.job.product_type then []
       else [Violation.incompatibleMachine a.machine_id a.job.product_type a.job.job_id]) ++
      (machine.downtime_windows.filter
          (fun d => d.overlaps_with a.start_time a.end_time)).map
        (fun d => Violation.downtimeConflict a.job.job_id a.machine_id d)
  shiftV ++ machineV

/-- The pairwise-overlap scan of validate_schedule step 3 (constraint_agent.py
lines 98-117): per machine, each assignment is checked against all earlier
assignments of that machine in traversal order. -/
def overlapScan : List JobAssignment → List Violation →
    (String → List (Int × Int × String)) → List Violation
  | [], viols, _ => viols
  | a :: rest, viols, timelines =>
    let start_min : Int := a.start_time.toMinutes
    let end_min : Int := a.end_time.toMinutes
    let existing := timelines a.machine_id
    let newV := (existing.filter
        (fun e => !(end_min ≤ e.1 || start_min ≥ e.2.1))).map
      (fun e => Violation.timeOverlap a.machine_id a.job.job_id e.2.2)
    overlapScan rest (viols ++ newV)
      (updateMap timelines a.machine_id (existing ++ [(start_min, end_min, a.job.job_id)]))

/-- Result triple of the constraint agent's validator. -/
structure ValidationResult where
  is_valid : Bool
  violations : List Violation
  report : String
deriving Repr, DecidableEq

/-- Validation report text (constraint_agent.py lines 134-158), abstracted
to its observable content (pass/fail and the violation count). -/
def validationReport (n : Nat) : String :=
  if n = 0 then "CONSTRAINT VALIDATION: PASSED"
  else "CONSTRAINT VALIDATION: FAILED with " ++ toString n ++ " violation(s)"

/-- The coverage stage of validate_schedule (constraint_agent.py lines
60-63): input job ids with no assignment in the schedule. Python computes a
set difference; this keeps the ids in input order — the set is empty exactly
when this list is, which is all the validator's behavior depends on. -/
def missingIdsOf (schedule : Schedule) (jobs : List Job) : List String :=
  let assigned_job_ids := schedule.get_all_jobs.map (fun a => a.job.job_id)
  (jobs.map (fun j => j.job_id)).filter (fun jid => !(assigned_job_ids.contains jid))

/-- ConstraintAgent.validate_schedule (src/agents/constraint_agent.py lines
39-160), in state-passing style: the second component is the schedule object
as it stands after the call (the source never assigns to it, so it is
returned unchanged). Checks: job coverage, shift boundary, machine
capability, downtime overlap, same-machine time overlap, rush lateness. -/
def validate_schedule (schedule : Schedule) (jobs : List Job)
    (machines : List Machine) (c : Constraint) : ValidationResult × Schedule :=
  let missing := missingIdsOf schedule jobs
  let v1 : List Violation := if missing.isEmpty then [] else [.missingJobs missing]
  let v2 := schedule.get_all_jobs.foldl
    (fun acc a => acc ++ perAssignmentChecks machines c a) v1
  let v3 := overlapScan schedule.get_all_jobs v2 (fun _ => [])
  let rush_violations := (schedule.get_all_jobs.filter
      (fun a => a.job.is_rush && a.is_late)).map
    (fun a => Violation.rushLate a.job.job_id a.get_tardiness_minutes)
  let violations := v3 ++ rush_violations
  (⟨violations.isEmpty, violations, validationReport violations.length⟩, schedule)

/-- ConstraintAgent.check_rush_job_priority (constraint_agent.py lines
162-194), in state-passing style: counts late rush assignments for
reporting; the schedule is returned as it stands after the call. -/
def check_rush_job_priority (schedule : Schedule) (_c : Constraint) :
    (Int × String) × Schedule :=
  let violations := schedule.get_all_jobs.foldl
    (fun (acc : Int) a =>
      if a.job.is_rush then (if a.is_late then acc + 1 else acc) else acc) 0
  let report :=
    if violations = 0 then "All rush jobs meet their deadlines"
    else toString violations ++ " rush job(s) miss deadlines"
  ((violations, report), schedule)

/-- Schedule.validate (src/models/schedule.py lines 215-252), in
state-passing style: shift and downtime checks only; when a KPI is present
its num_violations field is OVERWRITTEN with the number of violations found
(the one mutation of a schedule performed by any validation entry point). -/
def Schedule.validate (s : Schedule) (machines : List Machine) (c : Constraint) :
    (Bool × List Violation) × Schedule :=
  let viols := s.get_all_jobs.foldl (fun acc a =>
    let shiftV :=
      if !(decide ((c.shift_start.toMinutes : Int) ≤ (a.end_time.toMinutes : Int)) &&
           decide ((a.end_time.toMinutes : Int) ≤
             (c.shift_end.toMinutes : Int) + c.max_overtime_minutes)) then
        [Violation.beyondShift a.job.job_id a.machine_id a.end_time]
      else []
    let dtV :=
      match machines.find? (fun m => m.machine_id == a.machine_id) with
      | none => []
      | some machine =>
        (machine.downtime_windows.filter
            (fun d => d.overlaps_with a.start_time a.end_time)).map
          (fun d => Violation.downtimeConflict a.job.job_id a.machine_id d)
    acc ++ shiftV ++ dtV) []
  let s' :=
    match s.kpis with
    | some k => { s with kpis := some { k with num_violations := (viols.length : Int) } }
    | none => s
  ((viols.isEmpty, viols), s')

/-- The score a schedule contributes in candidate selection: its KPI's
weighted score (candidates without a KPI are skipped by the source; the 0
default here is never read under the claims' hypotheses). -/
def scoreOf (c : Constraint) (s : Schedule) : ℚ :=
  match s.kpis with
  | some k => k.get_weighted_score c
  | none => 0

/-- The scored-candidate list of select_best_schedule (supervisor.py lines
152-157): candidates whose schedule carries a KPI, with score attached. -/
def scoredOf (c : Constraint) (candidates : List (Schedule × String)) :
    List (Schedule × String × ℚ × KPI) :=
  candidates.filterMap (fun p =>
    match p.1.kpis with
    | some k => some (p.1, p.2, k.get_weighted_score c, k)
    | none => none)

/-- Selection explanation (supervisor.py lines 185-230): free text built
from the LLM response and the winning candidate's label and score. -/
def selectionExplanation (llm_response best_source : String) (best_score : ℚ) : String :=
  "FINAL RECOMMENDATION: " ++ llm_response ++ " SELECTED: " ++ best_source ++
  " (score " ++ toString best_score ++ ")"

/-- SupervisorAgent.select_best_schedule (src/agents/supervisor.py lines
136-234): raise on an empty candidate list, score candidates carrying a KPI,
stable-sort ascending by score, return the first (an IndexError if none was
scored). The LLM text reaches only the explanation. -/
def select_best_schedule (candidates : List (Schedule × String)) (c : Constraint)
    (llm_response : String) : Except String (Schedule × String) :=
  if candidates.isEmpty then .error "ValueError: No candidate schedules provided"
  else
    match sortBy (fun a b => decide (a.2.2.1 ≤ b.2.2.1)) (scoredOf c candidates) with
    | [] => .error "IndexError: list index out of range"
    | best :: _ =>
      .ok (best.1, selectionExplanation llm_response best.2.1 best.2.2.1)

/-- The left fold that keeps the earlier element on ties; the head of the
stable sort equals this fold over the tail. -/
def minFoldBy (le : α → α → Bool) (x : α) (l : List α) : α :=
  l.foldl (fun m y => if le m y then m else y) x

/-- Concrete scenario for the retry behavior: downtime windows
[9:00,10:00) and [10:30,11:00); the job's first proposal [8:00,10:00)
overlaps the first window, the retry [10:00,12:00) overlaps the second. -/
def cwJob : Job := ⟨"J1", "P_A", 120, ⟨12, 0⟩, "normal", ["M1"], none, none, 1⟩

/-- Machine of the retry scenario. -/
def cwMachine : Machine :=
  ⟨"M1", ["P_A"], 60, [⟨⟨9, 0⟩, ⟨10, 0⟩, "m"⟩, ⟨⟨10, 30⟩, ⟨11, 0⟩, "m"⟩]⟩

/-- Constraint of the retry scenario (default weights, empty setup matrix). -/
def cwConstraint : Constraint := ⟨⟨8, 0⟩, ⟨16, 0⟩, 0, [], 1, 1/2, 3/10⟩

/-- First job of the cursor-non-reversion run: rejected by M1 (double
downtime conflict), lands on M2. -/
def c10Job1 : Job := ⟨"J1", "P_A", 120, ⟨12, 0⟩, "normal", ["M1", "M2"], none, none, 1⟩

/-- Second job of the cursor-non-reversion run: only M1 allowed; starts at
the leftover advanced cursor 10:00 rather than the untouched 8:00. -/
def c10Job2 : Job := ⟨"J2", "P_A", 20, ⟨13, 0⟩, "normal", ["M1"], none, none, 1⟩

/-- Machine M1 with downtime [9:00,10:00) and [11:00,11:30). -/
def c10M1 : Machine :=
  ⟨"M1", ["P_A"], 60, [⟨⟨9, 0⟩, ⟨10, 0⟩, "maintenance"⟩, ⟨⟨11, 0⟩, ⟨11, 30⟩, "maintenance"⟩]⟩

/-- Machine M2, always free. -/
def c10M2 : Machine := ⟨"M2", ["P_A"], 60, []⟩

/-- Constraint of the cursor-non-reversion run. -/
def c10Constraint : Constraint := ⟨⟨8, 0⟩, ⟨16, 0⟩, 0, [], 1, 1/2, 3/10⟩

/-- The assignments of an engine result: those of the returned schedule, or
none when the engine raised. -/
def allAssignmentsOf : Except String (Schedule × String) → List JobAssignment
  | .ok p => p.1.get_all_jobs
  | .error _ => []

/-- Recognizer for the coverage (missing jobs) violation. -/
def Violation.isMissingJobs : Violation → Bool
  | .missingJobs _ => true
  | _ => false

/-- Job whose raw end minute count (8:00 start + 1000 min = minute 1480)
crosses midnight. -/
def c4Job : Job := ⟨"J1", "P_A", 1000, ⟨12, 0⟩, "normal", ["M1"], none, none, 1⟩

/-- Machine for the truncation runs, no downtimes. -/
def c4Machine : Machine := ⟨"M1", ["P_A"], 60, []⟩

/-- Constraint for the truncation runs. -/
def c4Constraint : Constraint := ⟨⟨8, 0⟩, ⟨16, 0⟩, 0, [], 1, 1/2, 3/10⟩

/-- The error message of an engine result, if any. -/
def errOf : Except String (Schedule × String) → Option String
  | .error e => some e
  | .ok _ => none

/-- First job of the overflow run: ends at 23:59, leaving the cursor at
minute 1439. -/
def c9Job1 : Job := ⟨"J1", "P_A", 959, ⟨12, 0⟩, "normal", ["M1"], none, none, 1⟩

/-- Second job of the overflow run: the 5-minute same-product setup pushes
the proposed start to minute 1444, hour 24 — Python's time() raises. -/
def c9Job2 : Job := ⟨"J2", "P_A", 10, ⟨13, 0⟩, "normal", ["M1"], none, none, 1⟩

/-- Machine of the overflow run. -/
def c9Machine : Machine := ⟨"M1", ["P_A"], 60, []⟩

/-- Constraint of the overflow run. -/
def c9Constraint : Constraint := ⟨⟨8, 0⟩, ⟨16, 0⟩, 0, [], 1, 1/2, 3/10⟩


/-! ### Helper lemmas -/

/-- The rush-violation counting loop equals the count of late rush
assignments. -/
theorem rush_count_foldl (l : List JobAssignment) (acc : Int) :
    l.foldl (fun (acc : Int) a =>
        if a.job.is_rush then (if a.is_late then acc + 1 else acc) else acc) acc =
      acc + ((l.filter (fun a => a.job.is_rush && a.is_late)).length : Int) := by
  induction l generalizing acc with
  | nil => simp
  | cons a t ih =>
    simp only [List.foldl_cons, List.filter_cons]
    by_cases h1 : a.job.is_rush = true <;> by_cases h2 : a.is_late = true <;>
      simp [h1, h2, ih] <;> push_cast <;> ring

/-- Membership through stable insertion. -/
theorem mem_insertBy (le : α → α → Bool) (x : α) (l : List α) (z : α) :
    z ∈ insertBy le x l ↔ z = x ∨ z ∈ l := by
  induction l with
  | nil => simp [insertBy]
  | cons y ys ih =>
    simp only [insertBy]
    split <;> simp [ih] <;> tauto

/-- Membership through the sort loop. -/
theorem mem_sortBy_loop (le : α → α → Bool) (l : List α) :
    ∀ (acc : List α) (z : α),
      z ∈ l.foldl (fun acc x => insertBy le x acc) acc ↔ z ∈ acc ∨ z ∈ l := by
  induction l with
  | nil => simp
  | cons x xs ih =>
    intro acc z
    simp only [List.foldl_cons]
    rw [ih (insertBy le x acc) z, mem_insertBy]
    simp
    tauto

/-- The stable sort permutes membership. -/
theorem mem_sortBy (le : α → α → Bool) (l : List α) (z : α) :
    z ∈ sortBy le l ↔ z ∈ l := by
  unfold sortBy
  rw [mem_sortBy_loop]
  simp

/-- The head of a stable insertion: the old head survives when it compares
at most the inserted element, else the inserted element becomes the head. -/
theorem head?_insertBy (le : α → α → Bool) (x : α) (l : List α) :
    (insertBy le x l).head? =
      some (match l.head? with
            | none => x
            | some h => if le h x then h else x) := by
  cases l with
  | nil => rfl
  | cons y ys =>
    simp only [insertBy, List.head?_cons]
    split <;> simp_all

/-- Head of the sort loop in terms of minFoldBy. -/
theorem head?_sortBy_loop (le : α → α → Bool) (l : List α) :
    ∀ (acc : List α) (h : α), acc.head? = some h →
      (l.foldl (fun acc x => insertBy le x acc) acc).head? = some (minFoldBy le h l) := by
  induction l with
  | nil =>
    intro acc h hacc
    simpa [minFoldBy] using hacc
  | cons x xs ih =>
    intro acc h hacc
    simp only [List.foldl_cons]
    have hh : (insertBy le x acc).head? = some (if le h x then h else x) := by
      rw [head?_insertBy, hacc]
    rw [ih (insertBy le x acc) (if le h x then h else x) hh]
    rfl

/-- The head of the stable sort of a non-empty list. -/
theorem head?_sortBy (le : α → α → Bool) (x : α) (l : List α) :
    (sortBy le (x :: l)).head? = some (minFoldBy le x l) := by
  unfold sortBy
  simp only [List.foldl_cons]
  exact head?_sortBy_loop le l [x] x rfl

/-- minFoldBy picks an element of the list. -/
theorem minFoldBy_mem (le : α → α → Bool) (x : α) (l : List α) :
    minFoldBy le x l ∈ x :: l := by
  induction l generalizing x with
  | nil => simp [minFoldBy]
  | cons y ys ih =>
    have := ih (if le x y then x else y)
    simp only [minFoldBy, List.foldl_cons] at *
    rcases List.mem_cons.mp this with h | h
    · rw [h]
      split <;> simp
    · simp [h]

/-- With a comparison given by a score, minFoldBy attains the minimum
score. -/
theorem minFoldBy_le (le : α → α → Bool) (sc : α → ℚ)
    (hle : ∀ a b, le a b = decide (sc a ≤ sc b)) (x : α) (l : List α) :
    ∀ z ∈ x :: l, sc (minFoldBy le x l) ≤ sc z := by
  induction l generalizing x with
  | nil =>
    intro z hz
    simp only [List.mem_singleton] at hz
    simp [minFoldBy, hz]
  | cons y ys ih =>
    intro z hz
    have hstep : minFoldBy le x (y :: ys) = minFoldBy le (if le x y then x else y) ys := rfl
    have hm1x : sc (if le x y then x else y) ≤ sc x := by
      rw [hle]
      split <;> simp_all
      linarith
    have hm1y : sc (if le x y then x else y) ≤ sc y := by
      rw [hle]
      split <;> simp_all
    have hres := ih (if le x y then x else y)
    have hresm : sc (minFoldBy le (if le x y then x else y) ys) ≤
        sc (if le x y then x else y) :=
      hres _ (List.mem_cons_self _ _)
    rcases List.mem_cons.mp hz with h | h
    · rw [hstep, h]
      exact le_trans hresm hm1x
    rcases List.mem_cons.mp h with h' | h'
    · rw [hstep, h']
      exact le_trans hresm hm1y
    · rw [hstep]
      exact hres z (List.mem_cons_of_mem _ h')

/-- minFoldBy returns the first element attaining the minimum: everything
strictly before it in the list has a strictly larger score. -/
theorem minFoldBy_first (le : α → α → Bool) (sc : α → ℚ)
    (hle : ∀ a b, le a b = decide (sc a ≤ sc b)) (x : α) (l : List α) :
    ∃ pre post, x :: l = pre ++ (minFoldBy le x l) :: post ∧
      ∀ z ∈ pre, sc (minFoldBy le x l) < sc z := by
  induction l generalizing x with
  | nil => exact ⟨[], [], by simp [minFoldBy], by simp⟩
  | cons y ys ih =>
    have hstep : minFoldBy le x (y :: ys) = minFoldBy le (if le x y then x else y) ys := rfl
    obtain ⟨pre', post', hdec, hlt⟩ := ih (if le x y then x else y)
    by_cases hxy : sc x ≤ sc y
    · have hm : (if le x y then x else y) = x := by
        rw [hle]
        simp [hxy]
      rw [hm] at hdec hlt
      rw [hstep, hm]
      cases pre' with
      | nil =>
        simp only [List.nil_append, List.cons.injEq] at hdec
        refine ⟨[], y :: ys, ?_, by simp⟩
        simp [← hdec.1]
      | cons p ps =>
        simp only [List.cons_append, List.cons.injEq] at hdec
        have hpx : p = x := hdec.1.symm
        have hys : ys = ps ++ minFoldBy le x ys :: post' := hdec.2
        refine ⟨x :: y :: ps, post', by simp only [List.cons_append]; rw [← hys], ?_⟩
        intro z hz
        have hltx : sc (minFoldBy le x ys) < sc x := by
          have := hlt p (by simp)
          rwa [hpx] at this
        rcases List.mem_cons.mp hz with h | h
        · rwa [h]
        rcases List.mem_cons.mp h with h' | h'
        · rw [h']
          exact lt_of_lt_of_le hltx hxy
        · exact hlt z (by simp [h'])
    · have hm : (if le x y then x else y) = y := by
        rw [hle]
        simp [hxy]
      have hyx : sc y < sc x := lt_of_not_le hxy
      rw [hm] at hdec hlt
      rw [hstep, hm]
      cases pre' with
      | nil =>
        simp only [List.nil_append, List.cons.injEq] at hdec
        refine ⟨[x], post', ?_, ?_⟩
        · simp only [List.cons_append, List.nil_append]
          rw [← hdec.1, ← hdec.2]
        · intro z hz
          simp only [List.mem_singleton] at hz
          rw [hz, ← hdec.1]
          exact hyx
      | cons p ps =>
        simp only [List.cons_append, List.cons.injEq] at hdec
        have hpy : p = y := hdec.1.symm
        have hys : ys = ps ++ minFoldBy le y ys :: post' := hdec.2
        refine ⟨x :: y :: ps, post', by simp only [List.cons_append]; rw [← hys], ?_⟩
        intro z hz
        have hlty : sc (minFoldBy le y ys) < sc y := by
          have := hlt p (by simp)
          rwa [hpy] at this
        rcases List.mem_cons.mp hz with h | h
        · rw [h]
          exact lt_trans hlty hyx
        rcases List.mem_cons.mp h with h' | h'
        · rwa [h']
        · exact hlt z (by simp [h'])

/-- minFoldBy commutes with mapping when the comparison factors through the
map. -/
theorem minFoldBy_map (le : β → β → Bool) (f : α → β) (x : α) (l : List α) :
    minFoldBy le (f x) (l.map f) = f (minFoldBy (fun a b => le (f a) (f b)) x l) := by
  induction l generalizing x with
  | nil => rfl
  | cons y ys ih =>
    simp only [List.map_cons, minFoldBy, List.foldl_cons]
    have hite : (if le (f x) (f y) then f x else f y) = f (if le (f x) (f y) then x else y) := by
      split <;> rfl
    rw [hite]
    exact ih _

/-- When every candidate carries a KPI, the scored list of
select_best_schedule is the full candidate list decorated with its scores. -/
theorem scoredOf_eq_map (c : Constraint) (candidates : List (Schedule × String))
    (hk : ∀ p ∈ candidates, p.1.kpis.isSome = true) :
    scoredOf c candidates =
      candidates.map (fun p =>
        (p.1, p.2, scoreOf c p.1, p.1.kpis.getD ⟨0, 0, 0, 0, 0, 0, 0⟩)) := by
  induction candidates with
  | nil => rfl
  | cons p ps ih =>
    obtain ⟨k, hk'⟩ := Option.isSome_iff_exists.mp (hk p (by simp))
    have hcons : scoredOf c (p :: ps) =
        (p.1, p.2, k.get_weighted_score c, k) :: scoredOf c ps := by
      simp [scoredOf, List.filterMap_cons, hk']
    rw [hcons, List.map_cons, ih (fun q hq => hk q (by simp [hq]))]
    simp [scoreOf, hk']

/-! ### Claim theorems -/

/-- C8: Job construction fails exactly when processing_time <= 0, or
machine_options is empty, or priority is outside rush/normal; otherwise it
succeeds and carries the given field values unchanged. -/
theorem c8_job_construction_validation (job_id product_type : String)
    (processing_time : Int) (due_time : Time) (priority : String)
    (machine_options : List String) (sr osr : Option String) (batch_size : Int) :
    ((∃ e, mkJob job_id product_type processing_time due_time priority machine_options
        sr osr batch_size = .error e) ↔
      (processing_time ≤ 0 ∨ machine_options = [] ∨
        ¬(priority = "rush" ∨ priority = "normal"))) ∧
    ((priority = "rush" ∨ priority = "normal") → 0 < processing_time →
      machine_options ≠ [] →
      mkJob job_id product_type processing_time due_time priority machine_options
          sr osr batch_size =
        .ok ⟨job_id, product_type, processing_time, due_time, priority,
             machine_options, sr, osr, batch_size⟩) := by
  constructor
  · unfold mkJob
    split_ifs with h1 h2 h3 <;> simp_all
  · intro hp hpt hmo
    unfold mkJob
    have h1 : ¬(priority ≠ "rush" ∧ priority ≠ "normal") := by tauto
    have h2 : ¬(processing_time ≤ 0) := by omega
    have h3 : ¬(machine_options = []) := hmo
    rw [if_neg h1, if_neg h2, if_neg h3]

/-- C8 witness: a well-formed job constructs successfully with its fields. -/
theorem c8_witness :
    mkJob "J001" "P_A" 45 ⟨12, 0⟩ "rush" ["M1", "M3"] none none 1 =
      .ok ⟨"J001", "P_A", 45, ⟨12, 0⟩, "rush", ["M1", "M3"], none, none, 1⟩ :=
  (c8_job_construction_validation "J001" "P_A" 45 ⟨12, 0⟩ "rush" ["M1", "M3"]
    none none 1).2 (Or.inl rfl) (by norm_num) (by simp)

/-- C5: for non-negative weights the weighted score is monotone
non-decreasing in total_tardiness, total_setup_time and
utilization_imbalance, and one extra violation adds exactly 1000. -/
theorem c5_weighted_score_monotone (c : Constraint) (k : KPI)
    (ht : 0 ≤ c.tardiness_weight) (hs : 0 ≤ c.setup_weight)
    (hu : 0 ≤ c.utilization_weight) :
    (∀ t₁ t₂ : Int, t₁ ≤ t₂ →
      KPI.get_weighted_score { k with total_tardiness := t₁ } c ≤
        KPI.get_weighted_score { k with total_tardiness := t₂ } c) ∧
    (∀ s₁ s₂ : Int, s₁ ≤ s₂ →
      KPI.get_weighted_score { k with total_setup_time := s₁ } c ≤
        KPI.get_weighted_score { k with total_setup_time := s₂ } c) ∧
    (∀ u₁ u₂ : ℚ, u₁ ≤ u₂ →
      KPI.get_weighted_score { k with utilization_imbalance := u₁ } c ≤
        KPI.get_weighted_score { k with utilization_imbalance := u₂ } c) ∧
    (∀ n : Int,
      KPI.get_weighted_score { k with num_violations := n + 1 } c =
        KPI.get_weighted_score { k with num_violations := n } c + 1000) := by
  refine ⟨fun t₁ t₂ hab => ?_, fun s₁ s₂ hab => ?_, fun u₁ u₂ hab => ?_, fun n => ?_⟩ <;>
    unfold KPI.get_weighted_score <;> simp only
  · have hq : (t₁ : ℚ) ≤ (t₂ : ℚ) := by exact_mod_cast hab
    linarith [mul_le_mul_of_nonneg_right hq ht]
  · have hq : (s₁ : ℚ) ≤ (s₂ : ℚ) := by exact_mod_cast hab
    linarith [mul_le_mul_of_nonneg_right hq hs]
  · linarith [mul_le_mul_of_nonneg_right hab hu]
  · push_cast
    ring

/-- C5 witness: with the default weights (1, 0.5, 0.3), increased tardiness
does not decrease the score and one violation adds exactly 1000. -/
theorem c5_witness :
    KPI.get_weighted_score ⟨3, 0, 0, 0, 0, 0, 0⟩
        ⟨⟨8, 0⟩, ⟨16, 0⟩, 0, [], 1, 1/2, 3/10⟩ ≤
      KPI.get_weighted_score ⟨7, 0, 0, 0, 0, 0, 0⟩
        ⟨⟨8, 0⟩, ⟨16, 0⟩, 0, [], 1, 1/2, 3/10⟩ ∧
    KPI.get_weighted_score ⟨3, 0, 0, 0, 0, 0, 1⟩
        ⟨⟨8, 0⟩, ⟨16, 0⟩, 0, [], 1, 1/2, 3/10⟩ =
      KPI.get_weighted_score ⟨3, 0, 0, 0, 0, 0, 0⟩
        ⟨⟨8, 0⟩, ⟨16, 0⟩, 0, [], 1, 1/2, 3/10⟩ + 1000 := by
  have h := c5_weighted_score_monotone ⟨⟨8, 0⟩, ⟨16, 0⟩, 0, [], 1, 1/2, 3/10⟩
    ⟨3, 0, 0, 0, 0, 0, 0⟩ (by norm_num) (by norm_num) (by norm_num)
  exact ⟨h.1 3 7 (by norm_num), h.2.2.2 0⟩

/-- C7: the four-argument validator returns the schedule object untouched
(every field, the KPI and its num_violations included), and the separate
rush-priority entry point also leaves it untouched while independently
counting the late rush assignments for its report. -/
theorem c7_validator_preserves_schedule (s : Schedule) (jobs : List Job)
    (machines : List Machine) (c : Constraint) :
    (validate_schedule s jobs machines c).2 = s ∧
    (check_rush_job_priority s c).2 = s ∧
    (check_rush_job_priority s c).1.1 =
      ((s.get_all_jobs.filter (fun a => a.job.is_rush && a.is_late)).length : Int) := by
  refine ⟨rfl, rfl, ?_⟩
  unfold check_rush_job_priority
  simpa using rush_count_foldl s.get_all_jobs 0

/-- C1: the assignments produced by the batching and bottleneck engines
depend only on jobs, machines and constraint; the language-model text (and,
for the bottleneck engine, the input schedule) reaches only the explanation
string, never the assignments. -/
theorem c1_assignments_independent_of_text (jobs : List Job)
    (machines : List Machine) (c : Constraint) (t₁ t₂ : String)
    (s₁ s₂ : Schedule) :
    (create_batched_schedule jobs machines c t₁).map (fun r => r.1.assignments) =
      (create_batched_schedule jobs machines c t₂).map (fun r => r.1.assignments) ∧
    (rebalance_schedule s₁ machines c jobs t₁).map (fun r => r.1.assignments) =
      (rebalance_schedule s₂ machines c jobs t₂).map (fun r => r.1.assignments) := by
  constructor
  · unfold create_batched_schedule
    cases hrun : runEngineLoop batchingSetupRule c machines (batchingJobOrder jobs)
        (initState c) <;>
      simp [hrun, Except.map]
  · unfold rebalance_schedule
    cases hrun : runEngineLoop bottleneckSetupRule c machines
        (sortBy bottleneckJobLe jobs) (initState c) <;>
      simp [hrun, Except.map]

/-- C6: on a non-empty candidate list in which every schedule carries a
KPI, select_best_schedule returns a candidate of minimal weighted score, and
every candidate strictly before it in input order has a strictly larger
score (input order breaks ties). -/
theorem c6_select_best_minimal (candidates : List (Schedule × String))
    (c : Constraint) (t : String) (hne : candidates ≠ [])
    (hk : ∀ p ∈ candidates, p.1.kpis.isSome = true) :
    ∃ sched expl src pre post,
      select_best_schedule candidates c t = .ok (sched, expl) ∧
      candidates = pre ++ (sched, src) :: post ∧
      (∀ p ∈ candidates, scoreOf c sched ≤ scoreOf c p.1) ∧
      (∀ p ∈ pre, scoreOf c sched < scoreOf c p.1) := by
  classical
  obtain ⟨p₀, ps, rfl⟩ : ∃ p₀ ps, candidates = p₀ :: ps := by
    cases candidates with
    | nil => exact absurd rfl hne
    | cons a l => exact ⟨a, l, rfl⟩
  set g : Schedule × String → Schedule × String × ℚ × KPI :=
    fun p => (p.1, p.2, scoreOf c p.1, p.1.kpis.getD ⟨0, 0, 0, 0, 0, 0, 0⟩) with hg
  set le0 : (Schedule × String × ℚ × KPI) → (Schedule × String × ℚ × KPI) → Bool :=
    fun a b => decide (a.2.2.1 ≤ b.2.2.1) with hle0
  have hsc : scoredOf c (p₀ :: ps) = g p₀ :: ps.map g := by
    rw [scoredOf_eq_map c (p₀ :: ps) hk]
    simp
  have hhead : (sortBy le0 (g p₀ :: ps.map g)).head? =
      some (minFoldBy le0 (g p₀) (ps.map g)) := head?_sortBy le0 (g p₀) (ps.map g)
  have hmap : minFoldBy le0 (g p₀) (ps.map g) =
      g (minFoldBy (fun a b => le0 (g a) (g b)) p₀ ps) := minFoldBy_map le0 g p₀ ps
  set m := minFoldBy (fun a b => le0 (g a) (g b)) p₀ ps with hm
  have hle' : ∀ a b : Schedule × String,
      (fun a b => le0 (g a) (g b)) a b = decide (scoreOf c a.1 ≤ scoreOf c b.1) := by
    intro a b
    rfl
  have hmele := minFoldBy_le (fun a b => le0 (g a) (g b)) (fun p => scoreOf c p.1)
    hle' p₀ ps
  obtain ⟨pre, post, hdec, hlt⟩ := minFoldBy_first (fun a b => le0 (g a) (g b))
    (fun p => scoreOf c p.1) hle' p₀ ps
  obtain ⟨b, bs, hbs⟩ : ∃ b bs, sortBy le0 (g p₀ :: ps.map g) = b :: bs := by
    cases hsb : sortBy le0 (g p₀ :: ps.map g) with
    | nil => rw [hsb] at hhead; simp at hhead
    | cons b bs => exact ⟨b, bs, rfl⟩
  have hb : b = g m := by
    rw [hbs] at hhead
    rw [hmap] at hhead
    simpa using hhead
  refine ⟨m.1, selectionExplanation t (g m).2.1 (g m).2.2.1, m.2, pre, post, ?_, ?_, ?_, ?_⟩
  · unfold select_best_schedule
    rw [if_neg (by simp)]
    rw [hsc, hbs, hb]
  · simpa using hdec
  · exact hmele
  · exact hlt

/-- C6 witness: of two concretely scored candidates the lower-scoring later
one is selected, the earlier one forming the strictly-worse prefix. -/
theorem c6_witness :
    ∃ sched expl src pre post,
      select_best_schedule
          [({ emptySchedule with kpis := some ⟨100, 0, 0, 0, 0, 0, 0⟩ }, "A"),
           ({ emptySchedule with kpis := some ⟨10, 0, 0, 0, 0, 0, 0⟩ }, "B")]
          ⟨⟨8, 0⟩, ⟨16, 0⟩, 0, [], 1, 1/2, 3/10⟩ "analysis" = .ok (sched, expl) ∧
      [({ emptySchedule with kpis := some ⟨100, 0, 0, 0, 0, 0, 0⟩ }, "A"),
       ({ emptySchedule with kpis := some ⟨10, 0, 0, 0, 0, 0, 0⟩ }, "B")] =
        pre ++ (sched, src) :: post ∧
      (∀ p ∈ [({ emptySchedule with kpis := some ⟨100, 0, 0, 0, 0, 0, 0⟩ }, "A"),
              ({ emptySchedule with kpis := some ⟨10, 0, 0, 0, 0, 0, 0⟩ }, "B")],
        scoreOf ⟨⟨8, 0⟩, ⟨16, 0⟩, 0, [], 1, 1/2, 3/10⟩ sched ≤
          scoreOf ⟨⟨8, 0⟩, ⟨16, 0⟩, 0, [], 1, 1/2, 3/10⟩ p.1) ∧
      (∀ p ∈ pre,
        scoreOf ⟨⟨8, 0⟩, ⟨16, 0⟩, 0, [], 1, 1/2, 3/10⟩ sched <
          scoreOf ⟨⟨8, 0⟩, ⟨16, 0⟩, 0, [], 1, 1/2, 3/10⟩ p.1) :=
  c6_select_best_minimal _ _ "analysis" (by simp) (by simp)

/-- A time built by mkTime has a valid hour and minute and is the truncation
of its arguments. -/
theorem mkTime_ok (h m : Int) (t : Time) (hok : mkTime h m = .ok t) :
    t.hour ≤ 23 ∧ t.minute ≤ 59 ∧ t = ⟨h.toNat, m.toNat⟩ := by
  unfold mkTime at hok
  split_ifs at hok with h1 h2
  push_neg at h1 h2
  injection hok with h'
  cases h'
  exact ⟨by show h.toNat ≤ 23; omega, by show m.toNat ≤ 59; omega, rfl⟩

/-- A successfully proposed interval has valid start and end times; the end
is the clamped truncation of the raw end minutes. -/
theorem proposeInterval_ok (cursor : Time) (setup_time processing_time : Int)
    (ps pe : Time)
    (hok : proposeInterval cursor setup_time processing_time = .ok (ps, pe)) :
    ps.hour ≤ 23 ∧ pe.hour ≤ 23 ∧
    ps = ⟨((cursor.toMinutes : Int) + setup_time).fdiv 60 |>.toNat,
          ((cursor.toMinutes : Int) + setup_time).emod 60 |>.toNat⟩ ∧
    pe = ⟨(min (((cursor.toMinutes : Int) + setup_time + processing_time).fdiv 60) 23).toNat,
          ((cursor.toMinutes : Int) + setup_time + processing_time).emod 60 |>.toNat⟩ := by
  simp only [proposeInterval] at hok
  split at hok
  · rename_i ps' pe' hs he
    injection hok with h'
    injection h' with ha hb
    subst ha
    subst hb
    obtain ⟨hh1, hm1, hv1⟩ := mkTime_ok _ _ _ hs
    obtain ⟨hh2, hm2, hv2⟩ := mkTime_ok _ _ _ he
    exact ⟨hh1, hh2, hv1, hv2⟩
  · exact absurd hok (by simp)
  · exact absurd hok (by simp)

/-- Characterization of a committed machine attempt: the schedule gains
exactly one assignment, for this job on this machine, whose start and end
hours are at most 23. -/
theorem attempt_committed_spec (rule : SetupRule) (c : Constraint) (job : Job)
    (m : Machine) (st st' : EngineState)
    (h : attemptOnMachine rule c job m st = .committed st') :
    ∃ ps pe, ps.hour ≤ 23 ∧ pe.hour ≤ 23 ∧
      st'.sched = st.sched.add_assignment
        ⟨job, m.machine_id, ps, pe, rule (st.current_product m.machine_id) job c⟩ := by
  simp only [attemptOnMachine] at h
  split at h
  · exact absurd h (by simp)
  · rename_i ps pe hprop
    split at h
    · rename_i hfind
      obtain ⟨hh1, hh2, _, _⟩ := proposeInterval_ok _ _ _ _ _ hprop
      refine ⟨ps, pe, hh1, hh2, ?_⟩
      injection h with h'
      rw [← h']
      rfl
    · rename_i dt hfind
      split at h
      · exact absurd h (by simp)
      · rename_i nc hnc
        split at h
        · exact absurd h (by simp)
        · rename_i ps₂ pe₂ hprop₂
          split at h
          · exact absurd h (by simp)
          · obtain ⟨hh1, hh2, _, _⟩ := proposeInterval_ok _ _ _ _ _ hprop₂
            refine ⟨ps₂, pe₂, hh1, hh2, ?_⟩
            injection h with h'
            rw [← h']
            rfl

/-- Characterization of a rejected machine attempt: the schedule, current
product and loads are untouched, and the machine's time cursor holds the end
of the first downtime window that overlapped the first proposal — the
advanced value is kept, not reverted. -/
theorem attempt_rejected_spec (rule : SetupRule) (c : Constraint) (job : Job)
    (m : Machine) (st st' : EngineState)
    (h : attemptOnMachine rule c job m st = .rejected st') :
    st'.sched = st.sched ∧ st'.current_product = st.current_product ∧
    st'.machine_loads = st.machine_loads ∧
    ∃ ps pe dt, m.downtime_windows.find? (fun d => d.overlaps_with ps pe) = some dt ∧
      st'.current_time = updateMap st.current_time m.machine_id
        ⟨dt.end_time.toMinutes / 60, dt.end_time.toMinutes % 60⟩ := by
  simp only [attemptOnMachine] at h
  split at h
  · exact absurd h (by simp)
  · rename_i ps pe hprop
    split at h
    · exact absurd h (by simp)
    · rename_i dt hfind
      split at h
      · exact absurd h (by simp)
      · rename_i nc hnc
        split at h
        · exact absurd h (by simp)
        · rename_i ps₂ pe₂ hprop₂
          split at h
          · injection h with h'
            obtain ⟨_, _, hval⟩ := mkTime_ok _ _ nc hnc
            rw [← h']
            refine ⟨rfl, rfl, rfl, ps, pe, dt, hfind, ?_⟩
            rw [hval]
            have e1 : ((dt.end_time.toMinutes / 60 : Nat) : Int).toNat =
                dt.end_time.toMinutes / 60 := by omega
            have e2 : ((dt.end_time.toMinutes % 60 : Nat) : Int).toNat =
                dt.end_time.toMinutes % 60 := by omega
            rw [e1, e2]
          · exact absurd h (by simp)

/-- A rejected attempt makes the loop move on to the next candidate machine
with the (cursor-advanced) state. -/
theorem tryMachines_rejected_step (rule : SetupRule) (c : Constraint) (job : Job)
    (m : Machine) (rest : List Machine) (st st' : EngineState)
    (h : attemptOnMachine rule c job m st = .rejected st') :
    tryMachines rule c job (m :: rest) st = tryMachines rule c job rest st' := by
  show (match attemptOnMachine rule c job m st with
        | .failed e => .error e
        | .committed st₁ => .ok st₁
        | .rejected st₁ => tryMachines rule c job rest st₁) = tryMachines rule c job rest st'
  rw [h]

/-- Reading a dict at the key just updated yields the new value. -/
theorem updateMap_same (f : String → α) (k : String) (v : α) : updateMap f k v k = v := by
  simp [updateMap]

/-- C2: when the proposed interval overlaps a downtime window (the first one
found), the machine cursor is advanced to that window's end, the interval is
recomputed once from the new cursor plus setup time, and then: no remaining
overlap commits the recomputed interval; any remaining overlap rejects the
machine for this job — the loop moves to the next compatible machine with no
further retry. -/
theorem c2_downtime_single_retry (rule : SetupRule) (c : Constraint) (job : Job)
    (m : Machine) (st : EngineState) (rest : List Machine)
    (ps pe nc ps₂ pe₂ : Time) (dt : DowntimeWindow)
    (h1 : proposeInterval (st.current_time m.machine_id)
        (rule (st.current_product m.machine_id) job c) job.processing_time = .ok (ps, pe))
    (h2 : m.downtime_windows.find? (fun d => d.overlaps_with ps pe) = some dt)
    (h3 : mkTime ((dt.end_time.toMinutes / 60 : Nat) : Int)
        ((dt.end_time.toMinutes % 60 : Nat) : Int) = .ok nc)
    (h4 : proposeInterval nc (rule (st.current_product m.machine_id) job c)
        job.processing_time = .ok (ps₂, pe₂)) :
    nc = ⟨dt.end_time.toMinutes / 60, dt.end_time.toMinutes % 60⟩ ∧
    (m.downtime_windows.any (fun d => d.overlaps_with ps₂ pe₂) = false →
      attemptOnMachine rule c job m st = .committed (commitAssignment
        { st with current_time := updateMap st.current_time m.machine_id nc }
        m.machine_id job ps₂ pe₂ (rule (st.current_product m.machine_id) job c))) ∧
    (m.downtime_windows.any (fun d => d.overlaps_with ps₂ pe₂) = true →
      attemptOnMachine rule c job m st = .rejected
        { st with current_time := updateMap st.current_time m.machine_id nc } ∧
      tryMachines rule c job (m :: rest) st = tryMachines rule c job rest
        { st with current_time := updateMap st.current_time m.machine_id nc }) := by
  refine ⟨?_, ?_, ?_⟩
  · obtain ⟨_, _, hval⟩ := mkTime_ok _ _ _ h3
    rw [hval]
    have e1 : ((dt.end_time.toMinutes / 60 : Nat) : Int).toNat =
        dt.end_time.toMinutes / 60 := by omega
    have e2 : ((dt.end_time.toMinutes % 60 : Nat) : Int).toNat =
        dt.end_time.toMinutes % 60 := by omega
    rw [e1, e2]
  · intro hb
    simp only [attemptOnMachine, h1, h2, h3, updateMap_same, h4, hb]
    simp
  · intro hb
    have hrej : attemptOnMachine rule c job m st = .rejected
        { st with current_time := updateMap st.current_time m.machine_id nc } := by
      simp only [attemptOnMachine, h1, h2, h3, updateMap_same, h4, hb]
      simp
    exact ⟨hrej, tryMachines_rejected_step rule c job m rest st _ hrej⟩

/-- C2 witness: in the concrete retry scenario the machine is rejected with
the cursor advanced to 10:00 and the loop proceeds to the remaining
machines. -/
theorem c2_witness :
    attemptOnMachine batchingSetupRule cwConstraint cwJob cwMachine
        (initState cwConstraint) =
      .rejected { initState cwConstraint with
        current_time :=
          updateMap (initState cwConstraint).current_time "M1" ⟨10, 0⟩ } ∧
    tryMachines batchingSetupRule cwConstraint cwJob [cwMachine]
        (initState cwConstraint) =
      tryMachines batchingSetupRule cwConstraint cwJob []
        { initState cwConstraint with
          current_time :=
            updateMap (initState cwConstraint).current_time "M1" ⟨10, 0⟩ } :=
  (c2_downtime_single_retry batchingSetupRule cwConstraint cwJob cwMachine
      (initState cwConstraint) [] ⟨8, 0⟩ ⟨10, 0⟩ ⟨10, 0⟩ ⟨10, 0⟩ ⟨12, 0⟩
      ⟨⟨9, 0⟩, ⟨10, 0⟩, "m"⟩ (by rfl) (by rfl) (by rfl) (by rfl)).2.2 (by rfl)

/-- C10: a rejected downtime retry leaves the machine's cursor at the
overlapped window's end (schedule, product and loads untouched) instead of
reverting it; concretely, J1's rejected attempt on M1 leaves M1's cursor at
10:00, and the later job J2 — the first ever placed on M1 — starts at 10:00
rather than at the 8:00 shift start. -/
theorem c10_cursor_not_reverted :
    (∀ (rule : SetupRule) (c : Constraint) (job : Job) (m : Machine)
        (st st' : EngineState),
      attemptOnMachine rule c job m st = .rejected st' →
      st'.sched = st.sched ∧ st'.current_product = st.current_product ∧
      st'.machine_loads = st.machine_loads ∧
      ∃ ps pe dt,
        m.downtime_windows.find? (fun d => d.overlaps_with ps pe) = some dt ∧
        st'.current_time = updateMap st.current_time m.machine_id
          ⟨dt.end_time.toMinutes / 60, dt.end_time.toMinutes % 60⟩) ∧
    (create_batched_schedule [c10Job1, c10Job2] [c10M1, c10M2] c10Constraint
        "llm text").toOption.map
      (fun r => r.1.get_all_jobs.map
        (fun a => (a.job.job_id, a.machine_id, a.start_time, a.end_time))) =
      some [("J1", "M2", ⟨8, 0⟩, ⟨10, 0⟩), ("J2", "M1", ⟨10, 0⟩, ⟨10, 20⟩)] := by
  constructor
  · intro rule c job m st st' h
    exact attempt_rejected_spec rule c job m st st' h
  · decide

/-- C10 witness: the general rejected-attempt characterization applied to
J1's concrete attempt on M1. -/
theorem c10_witness :
    ({ initState c10Constraint with
        current_time :=
          updateMap (initState c10Constraint).current_time "M1" ⟨10, 0⟩ } :
      EngineState).sched = (initState c10Constraint).sched ∧
    ({ initState c10Constraint with
        current_time :=
          updateMap (initState c10Constraint).current_time "M1" ⟨10, 0⟩ } :
      EngineState).current_product = (initState c10Constraint).current_product ∧
    ({ initState c10Constraint with
        current_time :=
          updateMap (initState c10Constraint).current_time "M1" ⟨10, 0⟩ } :
      EngineState).machine_loads = (initState c10Constraint).machine_loads ∧
    ∃ ps pe dt,
      c10M1.downtime_windows.find? (fun d => d.overlaps_with ps pe) = some dt ∧
      ({ initState c10Constraint with
          current_time :=
            updateMap (initState c10Constraint).current_time "M1" ⟨10, 0⟩ } :
        EngineState).current_time =
        updateMap (initState c10Constraint).current_time c10M1.machine_id
          ⟨dt.end_time.toMinutes / 60, dt.end_time.toMinutes % 60⟩ :=
  c10_cursor_not_reverted.1 batchingSetupRule c10Constraint c10Job1 c10M1
    (initState c10Constraint) _ (by rfl)

/-- Membership in the bucketed dict after appending. -/
theorem mem_flatten_bucketAppend (key : String) (a : α) (l : List (String × List α))
    (x : α) :
    x ∈ ((bucketAppend key a l).map Prod.snd).flatten ↔
      x ∈ (l.map Prod.snd).flatten ∨ x = a := by
  induction l with
  | nil => simp [bucketAppend]
  | cons p rest ih =>
    obtain ⟨k, v⟩ := p
    by_cases hk : (k == key) = true
    · simp only [bucketAppend, if_pos hk, List.map_cons, List.flatten_cons,
        List.mem_append, List.mem_singleton]
      tauto
    · simp only [bucketAppend, if_neg hk, List.map_cons, List.flatten_cons,
        List.mem_append, ih]
      tauto

/-- Membership in a schedule after add_assignment. -/
theorem mem_get_all_jobs_add (s : Schedule) (a : JobAssignment) (x : JobAssignment) :
    x ∈ (s.add_assignment a).get_all_jobs ↔ x ∈ s.get_all_jobs ∨ x = a := by
  unfold Schedule.add_assignment Schedule.get_all_jobs
  exact mem_flatten_bucketAppend a.machine_id a s.assignments x

/-- Invariant of the candidate-machine loop: a successful pass adds only
assignments of the current job, with clamped start and end hours. -/
theorem tryMachines_sched_spec (rule : SetupRule) (c : Constraint) (job : Job) :
    ∀ (l : List Machine) (st st' : EngineState),
      tryMachines rule c job l st = .ok st' →
      ∀ x ∈ st'.sched.get_all_jobs, x ∈ st.sched.get_all_jobs ∨
        (x.job = job ∧ x.start_time.hour ≤ 23 ∧ x.end_time.hour ≤ 23) := by
  intro l
  induction l with
  | nil =>
    intro st st' h x hx
    injection h with h'
    subst h'
    exact Or.inl hx
  | cons m rest ih =>
    intro st st' h x hx
    rw [show tryMachines rule c job (m :: rest) st =
        (match attemptOnMachine rule c job m st with
         | .failed e => .error e
         | .committed st₁ => .ok st₁
         | .rejected st₁ => tryMachines rule c job rest st₁) from rfl] at h
    cases hatt : attemptOnMachine rule c job m st with
    | failed e => rw [hatt] at h; exact absurd h (by simp)
    | committed st₁ =>
      rw [hatt] at h
      injection h with h'
      obtain ⟨ps, pe, hh1, hh2, hsched⟩ := attempt_committed_spec rule c job m st st₁ hatt
      rw [← h'] at hx
      rw [hsched] at hx
      rcases (mem_get_all_jobs_add _ _ _).mp hx with hmem | hx'
      · exact Or.inl hmem
      · rw [hx']
        exact Or.inr ⟨rfl, hh1, hh2⟩
    | rejected st₁ =>
      rw [hatt] at h
      obtain ⟨hsched, _, _, _⟩ := attempt_rejected_spec rule c job m st st₁ hatt
      rcases ih st₁ st' h x hx with hmem | hP
      · rw [hsched] at hmem
        exact Or.inl hmem
      · exact Or.inr hP

/-- A job with no compatible machine is skipped: the per-job step returns
the state unchanged without raising. -/
theorem processJob_drop (rule : SetupRule) (c : Constraint) (machines : List Machine)
    (job : Job) (st : EngineState) (h : compatibleFor job machines = []) :
    processJob rule c machines job st = .ok st := by
  unfold processJob
  rw [h]
  rfl

/-- Invariant of the per-job step: a successful step adds only assignments
of the current job, only when it has a compatible machine, with clamped
hours. -/
theorem processJob_spec (rule : SetupRule) (c : Constraint) (machines : List Machine)
    (job : Job) (st st' : EngineState)
    (h : processJob rule c machines job st = .ok st') :
    ∀ x ∈ st'.sched.get_all_jobs, x ∈ st.sched.get_all_jobs ∨
      (x.job = job ∧ compatibleFor job machines ≠ [] ∧
        x.start_time.hour ≤ 23 ∧ x.end_time.hour ≤ 23) := by
  intro x hx
  simp only [processJob] at h
  split at h
  · rename_i hemp
    injection h with h'
    rw [← h'] at hx
    exact Or.inl hx
  · rename_i hemp
    rcases tryMachines_sched_spec rule c job _ st st' h x hx with hmem | hP
    · exact Or.inl hmem
    · exact Or.inr ⟨hP.1, by simpa [List.isEmpty_iff] using hemp, hP.2.1, hP.2.2⟩

/-- Invariant of the whole engine loop. -/
theorem runEngineLoop_spec (rule : SetupRule) (c : Constraint) (machines : List Machine) :
    ∀ (jobs : List Job) (st st' : EngineState),
      runEngineLoop rule c machines jobs st = .ok st' →
      ∀ x ∈ st'.sched.get_all_jobs, x ∈ st.sched.get_all_jobs ∨
        (compatibleFor x.job machines ≠ [] ∧
          x.start_time.hour ≤ 23 ∧ x.end_time.hour ≤ 23) := by
  intro jobs
  induction jobs with
  | nil =>
    intro st st' h x hx
    injection h with h'
    subst h'
    exact Or.inl hx
  | cons j rest ih =>
    intro st st' h x hx
    rw [show runEngineLoop rule c machines (j :: rest) st =
        (match processJob rule c machines j st with
         | .error e => .error e
         | .ok st₁ => runEngineLoop rule c machines rest st₁) from rfl] at h
    cases hp : processJob rule c machines j st with
    | error e => rw [hp] at h; exact absurd h (by simp)
    | ok st₁ =>
      rw [hp] at h
      rcases ih st₁ st' h x hx with hmem | hP
      · rcases processJob_spec rule c machines j st st₁ hp x hmem with hm | hP'
        · exact Or.inl hm
        · refine Or.inr ⟨?_, hP'.2.2.1, hP'.2.2.2⟩
          rw [hP'.1]
          exact hP'.2.1
      · exact Or.inr hP

/-- Every assignment of a batching-engine result belongs to a job with a
compatible machine, with start and end hours at most 23. -/
theorem batched_all_assignments (jobs : List Job) (machines : List Machine)
    (c : Constraint) (t : String) :
    ∀ x ∈ allAssignmentsOf (create_batched_schedule jobs machines c t),
      compatibleFor x.job machines ≠ [] ∧
        x.start_time.hour ≤ 23 ∧ x.end_time.hour ≤ 23 := by
  intro x hx
  unfold create_batched_schedule at hx
  cases hrun : runEngineLoop batchingSetupRule c machines (batchingJobOrder jobs)
      (initState c) with
  | error e => rw [hrun] at hx; exact absurd hx (by simp [allAssignmentsOf])
  | ok st =>
    rw [hrun] at hx
    have hx' : x ∈ st.sched.get_all_jobs := by
      simpa [allAssignmentsOf, Schedule.get_all_jobs] using hx
    rcases runEngineLoop_spec batchingSetupRule c machines _ _ _ hrun x hx' with hm | hP
    · exact absurd hm (by simp [initState, emptySchedule, Schedule.get_all_jobs])
    · exact hP

/-- Every assignment of a bottleneck-engine result belongs to a job with a
compatible machine, with start and end hours at most 23. -/
theorem rebalanced_all_assignments (sched₀ : Schedule) (machines : List Machine)
    (c : Constraint) (all_jobs : List Job) (t : String) :
    ∀ x ∈ allAssignmentsOf (rebalance_schedule sched₀ machines c all_jobs t),
      compatibleFor x.job machines ≠ [] ∧
        x.start_time.hour ≤ 23 ∧ x.end_time.hour ≤ 23 := by
  intro x hx
  simp only [rebalance_schedule] at hx
  cases hrun : runEngineLoop bottleneckSetupRule c machines (sortBy bottleneckJobLe all_jobs)
      (initState c) with
  | error e => rw [hrun] at hx; exact absurd hx (by simp [allAssignmentsOf])
  | ok st =>
    rw [hrun] at hx
    have hx' : x ∈ st.sched.get_all_jobs := by
      simpa [allAssignmentsOf, Schedule.get_all_jobs] using hx
    rcases runEngineLoop_spec bottleneckSetupRule c machines _ _ _ hrun x hx' with hm | hP
    · exact absurd hm (by simp [initState, emptySchedule, Schedule.get_all_jobs])
    · exact hP

/-- Invariant of the baseline step. -/
theorem baselineStep_spec (c : Constraint) (machines : List Machine)
    (st st' : BaselineState) (job : Job)
    (h : baselineStep c machines st job = .ok st') :
    ∀ x ∈ st'.sched.get_all_jobs, x ∈ st.sched.get_all_jobs ∨
      (x.job = job ∧ compatibleFor job machines ≠ [] ∧
        x.start_time.hour ≤ 23 ∧ x.end_time.hour ≤ 23) := by
  intro x hx
  simp only [baselineStep] at h
  split at h
  · injection h with h'
    rw [← h'] at hx
    exact Or.inl hx
  · rename_i machine tail hcomp
    split at h
    · exact absurd h (by simp)
    · rename_i ps hps
      split at h
      · exact absurd h (by simp)
      · rename_i pe hpe
        injection h with h'
        rw [← h'] at hx
        rcases (mem_get_all_jobs_add _ _ _).mp hx with hmem | hx'
        · exact Or.inl hmem
        · obtain ⟨hh1, _, _⟩ := mkTime_ok _ _ _ hps
          obtain ⟨hh2, _, _⟩ := mkTime_ok _ _ _ hpe
          rw [hx']
          exact Or.inr ⟨rfl, by simp [hcomp], hh1, hh2⟩

/-- Invariant of the baseline loop. -/
theorem baselineLoop_spec (c : Constraint) (machines : List Machine) :
    ∀ (jobs : List Job) (st st' : BaselineState),
      baselineLoop c machines jobs st = .ok st' →
      ∀ x ∈ st'.sched.get_all_jobs, x ∈ st.sched.get_all_jobs ∨
        (compatibleFor x.job machines ≠ [] ∧
          x.start_time.hour ≤ 23 ∧ x.end_time.hour ≤ 23) := by
  intro jobs
  induction jobs with
  | nil =>
    intro st st' h x hx
    injection h with h'
    subst h'
    exact Or.inl hx
  | cons j rest ih =>
    intro st st' h x hx
    rw [show baselineLoop c machines (j :: rest) st =
        (match baselineStep c machines st j with
         | .error e => .error e
         | .ok st₁ => baselineLoop c machines rest st₁) from rfl] at h
    cases hp : baselineStep c machines st j with
    | error e => rw [hp] at h; exact absurd h (by simp)
    | ok st₁ =>
      rw [hp] at h
      rcases ih st₁ st' h x hx with hmem | hP
      · rcases baselineStep_spec c machines st st₁ j hp x hmem with hm | hP'
        · exact Or.inl hm
        · refine Or.inr ⟨?_, hP'.2.2.1, hP'.2.2.2⟩
          rw [hP'.1]
          exact hP'.2.1
      · exact Or.inr hP

/-- Every assignment of a baseline result belongs to a job with a compatible
machine, with start and end hours at most 23. -/
theorem baseline_all_assignments (jobs : List Job) (machines : List Machine)
    (c : Constraint) :
    ∀ x ∈ allAssignmentsOf (BaselineScheduler.schedule jobs machines c),
      compatibleFor x.job machines ≠ [] ∧
        x.start_time.hour ≤ 23 ∧ x.end_time.hour ≤ 23 := by
  intro x hx
  simp only [BaselineScheduler.schedule] at hx
  cases hrun : baselineLoop c machines (sortBy baselineJobLe jobs)
      { sched := emptySchedule
        current_time := fun _ => c.shift_start
        current_product := fun _ => none
        jobs_assigned := 0
        jobs_skipped := 0 } with
  | error e => rw [hrun] at hx; exact absurd hx (by simp [allAssignmentsOf])
  | ok st =>
    rw [hrun] at hx
    have hx2 : x ∈ allAssignmentsOf
        (match st.sched.calculate_kpis machines c with
         | .error e => .error e
         | .ok kpi =>
           .ok ({ st.sched with
                    kpis := some kpi
                    explanation := baselineExplanation st.jobs_assigned
                      st.jobs_skipped jobs.length },
                  baselineExplanation st.jobs_assigned st.jobs_skipped jobs.length)) := hx
    cases hkpi : st.sched.calculate_kpis machines c with
    | error e => rw [hkpi] at hx2; exact absurd hx2 (by simp [allAssignmentsOf])
    | ok kpi =>
      rw [hkpi] at hx2
      have hx' : x ∈ st.sched.get_all_jobs := by
        simpa [allAssignmentsOf, Schedule.get_all_jobs] using hx2
      rcases baselineLoop_spec c machines _ _ _ hrun x hx' with hm | hP
      · exact absurd hm (by simp [emptySchedule, Schedule.get_all_jobs])
      · exact hP

/-- The per-assignment checks never produce the coverage violation. -/
theorem perAssignmentChecks_not_missing (machines : List Machine) (c : Constraint)
    (a : JobAssignment) :
    ∀ v ∈ perAssignmentChecks machines c a, v.isMissingJobs = false := by
  intro v hv
  simp only [perAssignmentChecks, List.mem_append] at hv
  rcases hv with hv | hv
  · split at hv <;> simp_all [Violation.isMissingJobs]
  · split at hv
    · simp at hv
    · rcases List.mem_append.mp hv with hv' | hv'
      · split at hv' <;> simp_all [Violation.isMissingJobs]
      · obtain ⟨d, _, hd⟩ := List.mem_map.mp hv'
        rw [← hd]
        rfl

/-- Violations accumulated by the per-assignment fold are either inherited
or not the coverage violation. -/
theorem perFold_spec (machines : List Machine) (c : Constraint) :
    ∀ (l : List JobAssignment) (init : List Violation),
      ∀ v ∈ l.foldl (fun acc a => acc ++ perAssignmentChecks machines c a) init,
        v ∈ init ∨ v.isMissingJobs = false := by
  intro l
  induction l with
  | nil => intro init v hv; exact Or.inl hv
  | cons a rest ih =>
    intro init v hv
    simp only [List.foldl_cons] at hv
    rcases ih (init ++ perAssignmentChecks machines c a) v hv with h | h
    · rcases List.mem_append.mp h with h' | h'
      · exact Or.inl h'
      · exact Or.inr (perAssignmentChecks_not_missing machines c a v h')
    · exact Or.inr h

/-- The per-assignment fold keeps the inherited violations. -/
theorem perFold_mono (machines : List Machine) (c : Constraint) :
    ∀ (l : List JobAssignment) (init : List Violation), ∀ v ∈ init,
      v ∈ l.foldl (fun acc a => acc ++ perAssignmentChecks machines c a) init := by
  intro l
  induction l with
  | nil => intro init v hv; exact hv
  | cons a rest ih =>
    intro init v hv
    simp only [List.foldl_cons]
    exact ih _ v (List.mem_append_left _ hv)

/-- Violations produced by the overlap scan are either inherited or not the
coverage violation. -/
theorem overlapScan_spec :
    ∀ (l : List JobAssignment) (viols : List Violation)
      (tl : String → List (Int × Int × String)),
      ∀ v ∈ overlapScan l viols tl, v ∈ viols ∨ v.isMissingJobs = false := by
  intro l
  induction l with
  | nil => intro viols tl v hv; exact Or.inl hv
  | cons a rest ih =>
    intro viols tl v hv
    simp only [overlapScan] at hv
    rcases ih _ _ v hv with h | h
    · rcases List.mem_append.mp h with h' | h'
      · exact Or.inl h'
      · obtain ⟨e, _, he⟩ := List.mem_map.mp h'
        rw [← he]
        exact Or.inr rfl
    · exact Or.inr h

/-- The overlap scan keeps the inherited violations. -/
theorem overlapScan_mono :
    ∀ (l : List JobAssignment) (viols : List Violation)
      (tl : String → List (Int × Int × String)),
      ∀ v ∈ viols, v ∈ overlapScan l viols tl := by
  intro l
  induction l with
  | nil => intro viols tl v hv; exact hv
  | cons a rest ih =>
    intro viols tl v hv
    simp only [overlapScan]
    exact ih _ _ v (List.mem_append_left _ hv)

/-- A list does not contain an element exactly when the element is not a
member. -/
theorem contains_eq_false_iff (l : List String) (a : String) :
    (l.contains a = false) ↔ a ∉ l := by
  rw [← Bool.not_eq_true]
  exact not_congr List.elem_iff

/-- The missing-id list is non-empty exactly when some input job id has no
assignment. -/
theorem missingIdsOf_ne_nil (schedule : Schedule) (jobs : List Job) :
    ¬((missingIdsOf schedule jobs).isEmpty = true) ↔
      ∃ j ∈ jobs, ∀ a ∈ schedule.get_all_jobs, a.job.job_id ≠ j.job_id := by
  simp only [missingIdsOf, List.isEmpty_iff, List.filter_eq_nil_iff]
  constructor
  · intro h
    push_neg at h
    obtain ⟨jid, hjid, hp⟩ := h
    obtain ⟨j, hj, rfl⟩ := List.mem_map.mp hjid
    rw [Bool.not_eq_true'] at hp
    rw [contains_eq_false_iff] at hp
    exact ⟨j, hj, fun a ha heq => hp (List.mem_map.mpr ⟨a, ha, heq⟩)⟩
  · rintro ⟨j, hj, hcov⟩ h
    have hmem : j.job_id ∈ jobs.map (fun j => j.job_id) := List.mem_map.mpr ⟨j, hj, rfl⟩
    have hp := h _ hmem
    have hmem2 : j.job_id ∈ schedule.get_all_jobs.map (fun a => a.job.job_id) := by
      by_contra hnot
      exact hp (by rw [Bool.not_eq_true']; exact (contains_eq_false_iff _ _).mpr hnot)
    obtain ⟨a, ha, heq⟩ := List.mem_map.mp hmem2
    exact hcov a ha heq

/-- C3: a job with no compatible machine is dropped without raising — the
per-job step returns the state unchanged, no engine's result contains an
assignment for such a job — and the validator reports the missing-jobs
violation exactly when some input job id appears in no assignment. -/
theorem c3_dropped_jobs_detected :
    (∀ (rule : SetupRule) (c : Constraint) (machines : List Machine) (job : Job)
        (st : EngineState), compatibleFor job machines = [] →
      processJob rule c machines job st = .ok st) ∧
    (∀ (jobs : List Job) (machines : List Machine) (c : Constraint) (t : String)
        (job : Job), compatibleFor job machines = [] →
      ∀ a ∈ allAssignmentsOf (create_batched_schedule jobs machines c t),
        a.job ≠ job) ∧
    (∀ (sched₀ : Schedule) (machines : List Machine) (c : Constraint)
        (all_jobs : List Job) (t : String) (job : Job),
      compatibleFor job machines = [] →
      ∀ a ∈ allAssignmentsOf (rebalance_schedule sched₀ machines c all_jobs t),
        a.job ≠ job) ∧
    (∀ (jobs : List Job) (machines : List Machine) (c : Constraint) (job : Job),
      compatibleFor job machines = [] →
      ∀ a ∈ allAssignmentsOf (BaselineScheduler.schedule jobs machines c),
        a.job ≠ job) ∧
    (∀ (schedule : Schedule) (jobs : List Job) (machines : List Machine)
        (c : Constraint),
      (∃ ms, Violation.missingJobs ms ∈
          (validate_schedule schedule jobs machines c).1.violations) ↔
        ∃ j ∈ jobs, ∀ a ∈ schedule.get_all_jobs, a.job.job_id ≠ j.job_id) := by
  refine ⟨processJob_drop, ?_, ?_, ?_, ?_⟩
  · intro jobs machines c t job hcomp a ha heq
    exact (batched_all_assignments jobs machines c t a ha).1 (heq ▸ hcomp)
  · intro sched₀ machines c all_jobs t job hcomp a ha heq
    exact (rebalanced_all_assignments sched₀ machines c all_jobs t a ha).1 (heq ▸ hcomp)
  · intro jobs machines c job hcomp a ha heq
    exact (baseline_all_assignments jobs machines c a ha).1 (heq ▸ hcomp)
  · intro schedule jobs machines c
    simp only [validate_schedule]
    constructor
    · rintro ⟨ms, hms⟩
      rcases List.mem_append.mp hms with h | h
      · rcases overlapScan_spec _ _ _ _ h with h2 | h2
        · rcases perFold_spec machines c _ _ _ h2 with h3 | h3
          · split at h3
            · exact absurd h3 (by simp)
            · rename_i hne
              exact (missingIdsOf_ne_nil schedule jobs).mp hne
          · exact absurd h3 (by simp [Violation.isMissingJobs])
        · exact absurd h2 (by simp [Violation.isMissingJobs])
      · obtain ⟨a, _, ha⟩ := List.mem_map.mp h
        exact absurd ha (by simp)
    · intro hex
      have hne : ¬((missingIdsOf schedule jobs).isEmpty = true) :=
        (missingIdsOf_ne_nil schedule jobs).mpr hex
      refine ⟨missingIdsOf schedule jobs, List.mem_append_left _ ?_⟩
      refine overlapScan_mono _ _ _ _ (perFold_mono machines c _ _ _ ?_)
      rw [if_neg hne]
      exact List.mem_singleton.mpr rfl

/-- C3 witness: a concrete job that can run only on machine M1 is skipped,
state untouched, when the machine list holds only M2; and on a concrete
empty schedule with one input job the validator reports the coverage
violation (instantiating the iff). -/
theorem c3_witness :
    processJob batchingSetupRule c10Constraint [c10M2] c10Job2
        (initState c10Constraint) = .ok (initState c10Constraint) ∧
    ((∃ ms, Violation.missingJobs ms ∈
        (validate_schedule emptySchedule [c10Job1] [c10M1] c10Constraint).1.violations) ↔
      ∃ j ∈ [c10Job1], ∀ a ∈ (emptySchedule : Schedule).get_all_jobs,
        a.job.job_id ≠ j.job_id) :=
  ⟨c3_dropped_jobs_detected.1 batchingSetupRule c10Constraint [c10M2] c10Job2
      (initState c10Constraint) (by decide),
   c3_dropped_jobs_detected.2.2.2.2 emptySchedule [c10Job1] [c10M1] c10Constraint⟩

/-- C4: every assignment committed by any of the three engines has an end
hour of at most 23; in the concrete runs whose raw end minute count is 1480
(past midnight) the assignment is still committed, with the end truncated to
23:40 (hour clamped, minutes kept). -/
theorem c4_end_hour_clamped :
    (∀ (jobs : List Job) (machines : List Machine) (c : Constraint) (t : String),
      ∀ a ∈ allAssignmentsOf (create_batched_schedule jobs machines c t),
        a.end_time.hour ≤ 23) ∧
    (∀ (sched₀ : Schedule) (machines : List Machine) (c : Constraint)
        (all_jobs : List Job) (t : String),
      ∀ a ∈ allAssignmentsOf (rebalance_schedule sched₀ machines c all_jobs t),
        a.end_time.hour ≤ 23) ∧
    (∀ (jobs : List Job) (machines : List Machine) (c : Constraint),
      ∀ a ∈ allAssignmentsOf (BaselineScheduler.schedule jobs machines c),
        a.end_time.hour ≤ 23) ∧
    ((create_batched_schedule [c4Job] [c4Machine] c4Constraint "t").toOption.map
        (fun r => r.1.get_all_jobs.map (fun a => (a.start_time, a.end_time))) =
      some [(⟨8, 0⟩, ⟨23, 40⟩)]) ∧
    ((rebalance_schedule emptySchedule [c4Machine] c4Constraint [c4Job] "t").toOption.map
        (fun r => r.1.get_all_jobs.map (fun a => (a.start_time, a.end_time))) =
      some [(⟨8, 0⟩, ⟨23, 40⟩)]) ∧
    ((BaselineScheduler.schedule [c4Job] [c4Machine] c4Constraint).toOption.map
        (fun r => r.1.get_all_jobs.map (fun a => (a.start_time, a.end_time))) =
      some [(⟨8, 0⟩, ⟨23, 40⟩)]) := by
  refine ⟨?_, ?_, ?_, by decide, by decide, by decide⟩
  · intro jobs machines c t a ha
    exact (batched_all_assignments jobs machines c t a ha).2.2
  · intro sched₀ machines c all_jobs t a ha
    exact (rebalanced_all_assignments sched₀ machines c all_jobs t a ha).2.2
  · intro jobs machines c a ha
    exact (baseline_all_assignments jobs machines c a ha).2.2

/-- C4 witness: the truncated assignment committed by the concrete batching
run has end hour at most 23. -/
theorem c4_witness :
    (⟨c4Job, "M1", ⟨8, 0⟩, ⟨23, 40⟩, 0⟩ : JobAssignment).end_time.hour ≤ 23 :=
  c4_end_hour_clamped.1 [c4Job] [c4Machine] c4Constraint "t"
    ⟨c4Job, "M1", ⟨8, 0⟩, ⟨23, 40⟩, 0⟩ (by decide)

/-- A successful lookup returns a value stored in the association list. -/
theorem lookup_val_mem :
    ∀ (l : List (String × Int)) (k : String) (v : Int),
      l.lookup k = some v → ∃ k', (k', v) ∈ l := by
  intro l
  induction l with
  | nil => intro k v h; exact absurd h (by simp)
  | cons p rest ih =>
    intro k v h
    obtain ⟨a, b⟩ := p
    cases hke : (k == a) with
    | true =>
      simp only [List.lookup, hke] at h
      injection h with h'
      exact ⟨a, by simp [h']⟩
    | false =>
      simp only [List.lookup, hke] at h
      obtain ⟨k', hk'⟩ := ih k v h
      exact ⟨k', List.mem_cons_of_mem _ hk'⟩

/-- With non-negative configured setup times, get_setup_time is
non-negative (the fallback defaults are 5 and 30). -/
theorem get_setup_time_nonneg (c : Constraint)
    (h : ∀ kv ∈ c.setup_times, 0 ≤ kv.2) (p q : String) :
    0 ≤ c.get_setup_time p q := by
  unfold Constraint.get_setup_time
  split <;> cases hl : c.setup_times.lookup (p ++ "->" ++ q) with
  | none => simp
  | some v =>
    obtain ⟨k', hk'⟩ := lookup_val_mem _ _ _ hl
    simpa using h (k', v) hk'

/-- The batching/baseline setup rule is non-negative under non-negative
configured setup times. -/
theorem batchingSetupRule_nonneg (prev : Option String) (job : Job) (c : Constraint)
    (h : ∀ kv ∈ c.setup_times, 0 ≤ kv.2) :
    0 ≤ batchingSetupRule prev job c := by
  unfold batchingSetupRule
  split
  · exact get_setup_time_nonneg c h _ _
  · split
    · exact get_setup_time_nonneg c h _ _
    · exact le_refl 0

/-- mkTime succeeds on in-range arguments. -/
theorem mkTime_total (h m : Int) (hh0 : 0 ≤ h) (hh1 : h ≤ 23) (hm0 : 0 ≤ m)
    (hm1 : m ≤ 59) : mkTime h m = .ok ⟨h.toNat, m.toNat⟩ := by
  unfold mkTime
  rw [if_neg (by omega), if_neg (by omega)]

/-- mkTime applied to a clamped hour and a remainder minute of a
non-negative minute count always succeeds. -/
theorem mkTime_clamped_total (sm : Int) (h0 : 0 ≤ sm) :
    mkTime (min (sm.fdiv 60) 23) (sm.emod 60) =
      .ok ⟨(min (sm.fdiv 60) 23).toNat, (sm.emod 60).toNat⟩ :=
  mkTime_total _ _ (le_min (Int.fdiv_nonneg h0 (by norm_num)) (by norm_num))
    (min_le_right _ _) (Int.emod_nonneg _ (by norm_num))
    (by show sm % 60 ≤ 59
        have h := Int.emod_lt_of_pos sm (show (0:Int) < 60 by norm_num)
        omega)

/-- The baseline step never raises: both hours are clamped into range and,
with a positive processing time and non-negative setup times, both minute
counts are non-negative. -/
theorem baselineStep_total (c : Constraint) (machines : List Machine)
    (st : BaselineState) (job : Job) (hp : 0 < job.processing_time)
    (hsetup : ∀ kv ∈ c.setup_times, 0 ≤ kv.2) :
    ∃ st', baselineStep c machines st job = .ok st' := by
  cases hcomp : compatibleFor job machines with
  | nil =>
    refine ⟨{ st with jobs_skipped := st.jobs_skipped + 1 }, ?_⟩
    simp only [baselineStep, hcomp]
  | cons machine tail =>
    have hs : 0 ≤ batchingSetupRule (st.current_product machine.machine_id) job c :=
      batchingSetupRule_nonneg _ _ _ hsetup
    have hA : (0 : Int) ≤ ((st.current_time machine.machine_id).toMinutes : Int) +
        batchingSetupRule (st.current_product machine.machine_id) job c := by
      have : (0 : Int) ≤ ((st.current_time machine.machine_id).toMinutes : Int) := by
        positivity
      omega
    have hB : (0 : Int) ≤ ((st.current_time machine.machine_id).toMinutes : Int) +
        batchingSetupRule (st.current_product machine.machine_id) job c +
        job.processing_time := by omega
    simp only [baselineStep, hcomp]
    rw [mkTime_clamped_total _ hA, mkTime_clamped_total _ hB]
    exact ⟨_, rfl⟩

/-- The baseline loop never raises on jobs with positive processing time. -/
theorem baselineLoop_total (c : Constraint) (machines : List Machine)
    (hsetup : ∀ kv ∈ c.setup_times, 0 ≤ kv.2) :
    ∀ (jobs : List Job) (st : BaselineState), (∀ j ∈ jobs, 0 < j.processing_time) →
      ∃ st', baselineLoop c machines jobs st = .ok st' := by
  intro jobs
  induction jobs with
  | nil => intro st _; exact ⟨st, rfl⟩
  | cons j rest ih =>
    intro st hp
    obtain ⟨st₁, hst₁⟩ := baselineStep_total c machines st j (hp j (by simp)) hsetup
    obtain ⟨st', hst'⟩ := ih st₁ (fun j' hj' => hp j' (by simp [hj']))
    refine ⟨st', ?_⟩
    rw [show baselineLoop c machines (j :: rest) st =
        (match baselineStep c machines st j with
         | .error e => .error e
         | .ok st₁ => baselineLoop c machines rest st₁) from rfl, hst₁]
    exact hst'

/-- The utilization loop never raises when the shift duration is non-zero. -/
theorem utilizationLoop_total (s : Schedule) (shift : Int) (hshift : shift ≠ 0) :
    ∀ (ms : List Machine) (acc : List ℚ),
      ∃ us, utilizationLoop s shift ms acc = .ok us := by
  intro ms
  induction ms with
  | nil => intro acc; exact ⟨acc, rfl⟩
  | cons m rest ih =>
    intro acc
    simp only [utilizationLoop]
    split
    · exact ih acc
    · exact ih _


/-- calculate_kpis never raises when the shift duration is non-zero. -/
theorem calculate_kpis_total (s : Schedule) (machines : List Machine) (c : Constraint)
    (hshift : c.get_shift_duration_minutes ≠ 0) :
    ∃ k, s.calculate_kpis machines c = .ok k := by
  simp only [Schedule.calculate_kpis]
  obtain ⟨us, hus⟩ := utilizationLoop_total s c.get_shift_duration_minutes hshift machines []
  simp only [hus]
  split <;> exact ⟨_, rfl⟩

/-- C9: the batching and bottleneck engines are not total — on the concrete
two-job input whose cursor reaches minute 1439, the same-product setup
pushes the proposed start past midnight and the unclamped start-hour
construction raises — while the baseline engine, which clamps the start hour
to 23, returns normally on every input with positive processing times,
non-negative configured setup times and a non-zero shift duration. -/
theorem c9_engines_not_total :
    errOf (create_batched_schedule [c9Job1, c9Job2] [c9Machine] c9Constraint "t") =
      some "ValueError: hour must be in 0..23" ∧
    errOf (rebalance_schedule emptySchedule [c9Machine] c9Constraint
        [c9Job1, c9Job2] "t") =
      some "ValueError: hour must be in 0..23" ∧
    (∀ (jobs : List Job) (machines : List Machine) (c : Constraint),
      (∀ j ∈ jobs, 0 < j.processing_time) →
      (∀ kv ∈ c.setup_times, 0 ≤ kv.2) →
      c.get_shift_duration_minutes ≠ 0 →
      ∃ r, BaselineScheduler.schedule jobs machines c = .ok r) := by
  refine ⟨by decide, by decide, ?_⟩
  intro jobs machines c hp hsetup hshift
  simp only [BaselineScheduler.schedule]
  obtain ⟨st, hst⟩ := baselineLoop_total c machines hsetup (sortBy baselineJobLe jobs)
    { sched := emptySchedule
      current_time := fun _ => c.shift_start
      current_product := fun _ => none
      jobs_assigned := 0
      jobs_skipped := 0 }
    (fun j hj => hp j ((mem_sortBy baselineJobLe jobs j).mp hj))
  rw [hst]
  obtain ⟨k, hk⟩ := calculate_kpis_total st.sched machines c hshift
  show ∃ r, (match st.sched.calculate_kpis machines c with
             | Except.error e => (Except.error e : Except String (Schedule × String))
             | Except.ok kpi =>
               Except.ok ({ st.sched with
                              kpis := some kpi
                              explanation := baselineExplanation st.jobs_assigned
                                st.jobs_skipped jobs.length },
                    baselineExplanation st.jobs_assigned st.jobs_skipped jobs.length)) =
      Except.ok r
  rw [hk]
  exact ⟨_, rfl⟩

/-- C9 witness: on the concrete overflow input the baseline engine (alone)
returns normally. -/
theorem c9_witness :
    ∃ r, BaselineScheduler.schedule [c9Job1, c9Job2] [c9Machine] c9Constraint = .ok r :=
  c9_engines_not_total.2.2 [c9Job1, c9Job2] [c9Machine] c9Constraint
    (by decide) (by decide) (by decide)

end ProdOpt
